import Mathlib

/-!
# ustorehelper: namespaced key-value handles over one shared engine

A shallow embedding of `common/ledger/util/ustorehelper` (`ustore_helper.go`,
`ustore_provider.go`) and of the unguarded `DB` of `core/ledger/util/ustorehelper`
(`ustore_helper.go`), under `Core`.

* Go `[]byte` contents and Go `string`s are lists of bytes (`Bytes`).  Where the
  source distinguishes a nil slice from a non-nil one (`endKey == nil`,
  `v == nil`, a nil return value) the slice is an `Option Bytes` with `none` for nil.
* A Go map is the list of its entries.  The exported `KVs` map of `UpdateBatch` may be
  nil, which is `none`; ranging over a nil map visits nothing, assigning into it panics.
* Go `error` is `Option String`: `none` is the nil error, `some t` is `errors.New(t)`.
* A Go panic is `Result.panicked`; a normal return is `Result.ok`.
* The mutexes of `DB` and `Provider` are not modelled: every call runs alone.
* Go pointers to `DB` and `DBHandle` objects are addresses into `Memory`.
* The `ustore` engine is an external collaborator.  `DB` is written against the
  record `KVEngine` of the engine calls it makes; `mapEngine` is the engine as an
  ordered map.
-/

namespace Ustorehelper

/-! ## Bytes and their order -/

abbrev Byte := Fin 256

abbrev Bytes := List Byte

/-- Content of a Go slice: what `string(b)` and `append(x, b...)` read; nil reads as empty. -/
def bytesOf : Option Bytes → Bytes
  | none => []
  | some b => b

/-- Byte-wise lexicographic `a < b` (Go `bytes.Compare(a, b) < 0`, the order of Go strings):
a proper prefix sorts first. -/
def bytesLt : Bytes → Bytes → Bool
  | _, [] => false
  | [], _ :: _ => true
  | a :: as, b :: bs => decide (a < b) || (a == b && bytesLt as bs)

/-- Byte-wise lexicographic `a ≤ b`. -/
def bytesLe (a b : Bytes) : Bool := !bytesLt b a

/-! ## Key codec (`ustore_provider.go`) -/

/-- Source: `var dbNameKeySep = []byte{0x00}`. -/
def dbNameKeySep : Bytes := [0x00]

/-- Source: `var lastKeyIndicator = byte(0x01)`. -/
def lastKeyIndicator : Byte := 0x01

/-- Source: `constructLevelKey`:
`append(append([]byte(dbName), dbNameKeySep...), key...)`. -/
def constructLevelKey (dbName : Bytes) (key : Bytes) : Bytes :=
  (dbName ++ dbNameKeySep) ++ key

/-- Go `bytes.Index(s, sep)`: the index of the first occurrence of `sep` in `s`,
`none` for the result `-1`. -/
def bytesIndex (s sep : Bytes) : Option Nat :=
  if sep.isPrefixOf s then some 0
  else
    match s with
    | [] => none
    | _ :: t => (bytesIndex t sep).map Nat.succ

/-- The loop of Go `bytes.genSplit` with `sepSave = 0`: at most `n` further cuts,
each at the first occurrence of `sep`, then the remainder. -/
def genSplitLoop (sep : Bytes) : Nat → Bytes → List Bytes
  | 0, s => [s]
  | n + 1, s =>
    match bytesIndex s sep with
    | none => [s]
    | some m => s.take m :: genSplitLoop sep n (s.drop (m + sep.length))

/-- Go `bytes.SplitN(s, sep, n)` for `n ≥ 0` and a non-empty `sep`.  `n = 0` gives the
empty result.  The empty-separator branch (`explode`, which cuts at UTF-8 boundaries) is
not modelled and is `none`; this package only passes the one-byte `dbNameKeySep`. -/
def SplitN (s sep : Bytes) (n : Nat) : Option (List Bytes) :=
  if n = 0 then some []
  else if sep = [] then none
  else some (genSplitLoop sep (n - 1) s)

/-- Source: `retrieveAppKey`: `bytes.SplitN(levelKey, dbNameKeySep, 2)[1]`.
`none` is the index-out-of-range panic of `[1]` on a one-element result. -/
def retrieveAppKey (levelKey : Bytes) : Option Bytes :=
  (SplitN levelKey dbNameKeySep 2).bind fun a => a[1]?

/-! ## The engine boundary (`ustore`) -/

/-- Modelled from the spec: the `ustore` status value, absent from the sources, as the
three observers the code calls on it: `Ok()`, `IsNotFound()` and `ToString()`. -/
structure Status where
  Ok : Bool
  IsNotFound : Bool
  ToString : String
deriving DecidableEq, Repr

/-- Handle of an engine connection (`ustore.KVDB`). -/
abbrev KVDB := Nat

/-- One operation recorded in a `ustore.WriteBatch`. -/
inductive BatchOp where
  | Put (key value : Bytes)
  | Delete (key : Bytes)
deriving DecidableEq, Repr

/-- Modelled from the spec: `ustore.WriteBatch`, absent from the sources: the operations
added to it, in the order they were added. -/
abbrev WriteBatch := List BatchOp

/-- Go `ustore.NewWriteBatch()`. -/
def NewWriteBatch : WriteBatch := []

/-- Go `batch.Put(key, value)` on a `ustore.WriteBatch`. -/
def WriteBatch.Put (b : WriteBatch) (key value : Bytes) : WriteBatch := b ++ [BatchOp.Put key value]

/-- Go `batch.Delete(key)` on a `ustore.WriteBatch`. -/
def WriteBatch.Delete (b : WriteBatch) (key : Bytes) : WriteBatch := b ++ [BatchOp.Delete key]

/-- Membership of a physical key in the range `[startK, endK)` of `SetRange`; an empty
`endK` is no upper bound (`DB.GetIterator` passes `""` for a nil end key, documented as
"a logical key after the last available key"). -/
def inRange (startK endK key : Bytes) : Bool :=
  bytesLe startK key && (endK == [] || bytesLt key endK)

/-- Modelled from the spec: the engine cursor `ustore.Iterator`, absent from the sources
(spec 4.5 and 6): a forward cursor over the entries the engine held when the cursor was
made, in ascending key order, restricted to `[startK, endK)`.  `rest` is the cursor: its
head is the current entry, and the cursor is valid while `rest` is not empty. -/
structure UstoreIterator where
  entries : List (Bytes × Bytes)
  startK : Bytes
  endK : Bytes
  rest : List (Bytes × Bytes)
deriving DecidableEq, Repr

/-- Go `it.SetRange(startK, endK)`. -/
def UstoreIterator.SetRange (it : UstoreIterator) (startK endK : Bytes) : UstoreIterator :=
  { it with startK := startK, endK := endK }

/-- Go `it.SeekToFirst()`: position at the first entry of the range. -/
def UstoreIterator.SeekToFirst (it : UstoreIterator) : UstoreIterator :=
  { it with rest := it.entries.filter fun e => inRange it.startK it.endK e.1 }

/-- Go `it.Valid()`. -/
def UstoreIterator.Valid (it : UstoreIterator) : Bool := !it.rest.isEmpty

/-- Go `it.Next()`: advance the cursor (the returned flag is `Valid` of the result). -/
def UstoreIterator.Next (it : UstoreIterator) : UstoreIterator :=
  { it with rest := it.rest.tail }

/-- Go `it.Key()`; `none` where the cursor is not positioned (undefined in the engine). -/
def UstoreIterator.Key (it : UstoreIterator) : Option Bytes := it.rest.head?.map Prod.fst

/-- Go `it.Value()`; `none` where the cursor is not positioned. -/
def UstoreIterator.Value (it : UstoreIterator) : Option Bytes := it.rest.head?.map Prod.snd

/-- The calls `DB` makes on the `ustore` engine, over an engine state `σ`.  The connection
argument of `DeleteKVDB` is the Go interface value, `none` when nil. -/
structure KVEngine (σ : Type) where
  NewKVDB : σ → KVDB × σ
  DeleteKVDB : Option KVDB → σ → σ
  Get : KVDB → Bytes → σ → (Status × Bytes) × σ
  Put : KVDB → Bytes → Bytes → σ → Status × σ
  Delete : KVDB → Bytes → σ → Status × σ
  Write : KVDB → WriteBatch → σ → Status × σ
  NewIterator : KVDB → σ → UstoreIterator × σ

/-- Outcome of a Go call: a normal return, or a panic with its message. -/
inductive Result (α : Type) where
  | ok (a : α)
  | panicked (msg : String)
deriving DecidableEq, Repr

/-- Message of the Go runtime panic on a method call through a nil interface value. -/
def nilDeref : String := "invalid memory address or nil pointer dereference"

/-! ## The engine handle `DB` (`common/.../ustore_helper.go`) -/

/-- Source: `type dbState int32` with `closed = iota` and `opened`. -/
inductive dbState where
  | closed
  | opened
deriving DecidableEq, Repr

/-- Source: `type Conf struct {}`. -/
inductive Conf where
  | mk
deriving DecidableEq, Repr

/-- Source: `type DB struct`, without the mutex.  `db` is `none` for the nil interface
value a fresh `DB` holds. -/
structure DB where
  conf : Conf
  db : Option KVDB
  dbState : dbState
  init : Bool
deriving DecidableEq, Repr

/-- Source: `CreateDB`. -/
def CreateDB (conf : Conf) : DB :=
  { conf := conf, db := none, dbState := dbState.closed, init := false }

/-- Source: `DB.Open`. -/
def DB.Open {σ : Type} (E : KVEngine σ) (dbInst : DB) (w : σ) : DB × σ :=
  if dbInst.dbState = dbState.opened then (dbInst, w)
  else
    let r := E.NewKVDB w
    ({ dbInst with db := some r.1, dbState := dbState.opened, init := true }, r.2)

/-- Source: `DB.Close`. -/
def DB.Close {σ : Type} (E : KVEngine σ) (dbInst : DB) (w : σ) : DB × σ :=
  if dbInst.dbState = dbState.closed then (dbInst, w)
  else ({ dbInst with dbState := dbState.closed }, E.DeleteKVDB dbInst.db w)

/-- Source: `DB.Get`.  Returns `(value, err)` and the engine state. -/
def DB.Get {σ : Type} (E : KVEngine σ) (dbInst : DB) (key : Bytes) (w : σ) :
    Result ((Option Bytes × Option String) × σ) :=
  if dbInst.init = false then Result.panicked "DB is not opened yet"
  else if dbInst.dbState = dbState.closed then Result.ok ((none, some ""), w)
  else
    match dbInst.db with
    | none => Result.panicked nilDeref
    | some c =>
      let ret := E.Get c key w
      let st := ret.1.1
      let value : Option Bytes := some ret.1.2
      let value := if st.IsNotFound then none else value
      let err : Option String :=
        if st.IsNotFound then none else if !st.Ok then some st.ToString else none
      if err ≠ none then Result.ok ((none, err), ret.2)
      else Result.ok ((value, none), ret.2)

/-- Source: `DB.Put`.  Returns `err` and the engine state. -/
def DB.Put {σ : Type} (E : KVEngine σ) (dbInst : DB) (key value : Bytes) (w : σ) :
    Result (Option String × σ) :=
  if dbInst.init = false then Result.panicked "DB is not opened yet"
  else if dbInst.dbState = dbState.closed then Result.ok (some "", w)
  else
    match dbInst.db with
    | none => Result.panicked nilDeref
    | some c =>
      let r := E.Put c key value w
      if !r.1.Ok then Result.ok (some r.1.ToString, r.2)
      else Result.ok (none, r.2)

/-- Source: `DB.Delete`. -/
def DB.Delete {σ : Type} (E : KVEngine σ) (dbInst : DB) (key : Bytes) (w : σ) :
    Result (Option String × σ) :=
  if dbInst.init = false then Result.panicked "DB is not opened yet"
  else if dbInst.dbState = dbState.closed then Result.ok (some "", w)
  else
    match dbInst.db with
    | none => Result.panicked nilDeref
    | some c =>
      let r := E.Delete c key w
      if !r.1.Ok then Result.ok (some r.1.ToString, r.2)
      else Result.ok (none, r.2)

/-- Source: `DB.GetIterator`. -/
def DB.GetIterator {σ : Type} (E : KVEngine σ) (dbInst : DB) (startKey endKey : Option Bytes)
    (w : σ) : Result (UstoreIterator × σ) :=
  if dbInst.dbState = dbState.closed then Result.panicked "DB is not opened yet"
  else
    match dbInst.db with
    | none => Result.panicked nilDeref
    | some c =>
      let r := E.NewIterator c w
      let startK : Bytes := match startKey with
        | some k => k
        | none => []
      let endK : Bytes := match endKey with
        | some k => k
        | none => []
      Result.ok ((r.1.SetRange startK endK).SeekToFirst, r.2)

/-- Source: `DB.WriteBatch`. -/
def DB.WriteBatch {σ : Type} (E : KVEngine σ) (dbInst : DB) (batch : WriteBatch) (w : σ) :
    Result (Option String × σ) :=
  if dbInst.dbState = dbState.closed then Result.ok (none, w)
  else
    match dbInst.db with
    | none => Result.panicked nilDeref
    | some c =>
      let r := E.Write c batch w
      if !r.1.Ok then Result.ok (some r.1.ToString, r.2)
      else Result.ok (none, r.2)

/-! ## Namespace handles, batches and iterators (`ustore_provider.go`) -/

/-- Address of the shared `DB` object a handle points to. -/
abbrev DBPtr := Nat

/-- Source: `type DBHandle struct { dbName string; db *DB }`.  The methods below take the
current state of the pointed-to `DB` as the argument `dbInst`. -/
structure DBHandle where
  dbName : Bytes
  db : DBPtr
deriving DecidableEq, Repr

/-- Source: `DBHandle.Get`. -/
def DBHandle.Get {σ : Type} (E : KVEngine σ) (h : DBHandle) (dbInst : DB) (key : Bytes) (w : σ) :
    Result ((Option Bytes × Option String) × σ) :=
  DB.Get E dbInst (constructLevelKey h.dbName key) w

/-- Source: `DBHandle.Put`. -/
def DBHandle.Put {σ : Type} (E : KVEngine σ) (h : DBHandle) (dbInst : DB) (key value : Bytes)
    (w : σ) : Result (Option String × σ) :=
  DB.Put E dbInst (constructLevelKey h.dbName key) value w

/-- Source: `DBHandle.Delete`. -/
def DBHandle.Delete {σ : Type} (E : KVEngine σ) (h : DBHandle) (dbInst : DB) (key : Bytes)
    (w : σ) : Result (Option String × σ) :=
  DB.Delete E dbInst (constructLevelKey h.dbName key) w

/-- Source: `type UpdateBatch struct { KVs map[string][]byte }`.  `KVs` is `none` for the
nil map (the map of the zero value `UpdateBatch{}`) and otherwise the list of the entries of
the map, in the order `range` enumerates them; a `none` value is the nil deletion marker.
A Go map holds each key once: `UpdateBatch.WF`. -/
structure UpdateBatch where
  KVs : Option (List (Bytes × Option Bytes))
deriving DecidableEq, Repr

/-- The entries of the map of a batch: what `range batch.KVs` enumerates and what an index
expression reads.  A nil map has none. -/
def UpdateBatch.entries (batch : UpdateBatch) : List (Bytes × Option Bytes) :=
  match batch.KVs with
  | none => []
  | some m => m

/-- Keys of a Go map are unique. -/
def UpdateBatch.WF (batch : UpdateBatch) : Prop := (batch.entries.map Prod.fst).Nodup

/-- Source: `NewUpdateBatch`: `&UpdateBatch{make(map[string][]byte)}`. -/
def NewUpdateBatch : UpdateBatch := { KVs := some [] }

/-- Message of the Go runtime panic on `m[k] = v` for a nil map `m`. -/
def nilMapAssign : String := "assignment to entry in nil map"

/-- Go map assignment `m[k] = v` on a map given as the list of its entries: the entry of
`k` is overwritten where it stands, a new key is added at the end. -/
def mapAssign {β : Type} (m : List (Bytes × β)) (k : Bytes) (v : β) : List (Bytes × β) :=
  if m.any (fun e => e.1 == k) then m.map (fun e => if e.1 == k then (k, v) else e)
  else m ++ [(k, v)]

/-- Source: `UpdateBatch.Put`.  Returns the outcome of the call and the batch as the call
leaves it (the Go method writes the batch in place). -/
def UpdateBatch.Put (batch : UpdateBatch) (key : Bytes) (value : Option Bytes) :
    Result Unit × UpdateBatch :=
  if value = none then (Result.panicked "Nil value not allowed", batch)
  else
    match batch.KVs with
    | none => (Result.panicked nilMapAssign, batch)
    | some m => (Result.ok (), { KVs := some (mapAssign m key value) })

/-- Source: `UpdateBatch.Delete`.  Returns the outcome of the call and the batch as the call
leaves it. -/
def UpdateBatch.Delete (batch : UpdateBatch) (key : Bytes) : Result Unit × UpdateBatch :=
  match batch.KVs with
  | none => (Result.panicked nilMapAssign, batch)
  | some m => (Result.ok (), { KVs := some (mapAssign m key none) })

/-- The body of the `for k, v := range batch.KVs` loop of `DBHandle.WriteBatch`. -/
def addToBatch (dbName : Bytes) (ustoreBatch : WriteBatch) (kv : Bytes × Option Bytes) :
    WriteBatch :=
  let key := constructLevelKey dbName kv.1
  match kv.2 with
  | none => ustoreBatch.Delete key
  | some v => ustoreBatch.Put key v

/-- Source: `DBHandle.WriteBatch`. -/
def DBHandle.WriteBatch {σ : Type} (E : KVEngine σ) (h : DBHandle) (dbInst : DB)
    (batch : UpdateBatch) (w : σ) : Result (Option String × σ) :=
  let ustoreBatch := batch.entries.foldl (addToBatch h.dbName) NewWriteBatch
  match DB.WriteBatch E dbInst ustoreBatch w with
  | Result.ok (err, w1) => if err ≠ none then Result.ok (err, w1) else Result.ok (none, w1)
  | Result.panicked msg => Result.panicked msg

/-- The `sKey` and `eKey` that `DBHandle.GetIterator` computes and passes to
`DB.GetIterator`. -/
def DBHandle.iterBounds (h : DBHandle) (startKey endKey : Option Bytes) : Bytes × Bytes :=
  let sKey := constructLevelKey h.dbName (bytesOf startKey)
  let eKey := constructLevelKey h.dbName (bytesOf endKey)
  let eKey := if endKey = none then eKey.set (eKey.length - 1) lastKeyIndicator else eKey
  (sKey, eKey)

/-- Source: `type Iterator struct { ustore.Iterator }`; the embedded field is named
`cursor` here. -/
structure Iterator where
  cursor : UstoreIterator
deriving DecidableEq, Repr

/-- Source: `DBHandle.GetIterator`. -/
def DBHandle.GetIterator {σ : Type} (E : KVEngine σ) (h : DBHandle) (dbInst : DB)
    (startKey endKey : Option Bytes) (w : σ) : Result (Iterator × σ) :=
  let b := h.iterBounds startKey endKey
  match DB.GetIterator E dbInst (some b.1) (some b.2) w with
  | Result.ok (it, w1) => Result.ok ({ cursor := it }, w1)
  | Result.panicked msg => Result.panicked msg

/-- Source: `Iterator.Key`: `retrieveAppKey([]byte(itr.Iterator.Key()))`; `none` where the
cursor is not positioned or `retrieveAppKey` panics. -/
def Iterator.Key (itr : Iterator) : Option Bytes :=
  itr.cursor.Key.bind retrieveAppKey

/-- The promoted method `Value` of the embedded cursor. -/
def Iterator.Value (itr : Iterator) : Option Bytes := itr.cursor.Value

/-- The promoted method `Valid` of the embedded cursor. -/
def Iterator.Valid (itr : Iterator) : Bool := itr.cursor.Valid

/-- The promoted method `Next` of the embedded cursor. -/
def Iterator.Next (itr : Iterator) : Iterator := { cursor := itr.cursor.Next }

/-- The promoted method `SeekToFirst` of the embedded cursor. -/
def Iterator.SeekToFirst (itr : Iterator) : Iterator := { cursor := itr.cursor.SeekToFirst }

/-- The body of the scan loop of `checkItrResults` (`core/.../ustore_helper_test.go`):
`for ...; itr.Valid(); itr.Next() { Key(); Value() }`, with a bound on the number of
rounds.  `none` where the bound is used up or a `Key()`/`Value()` call fails. -/
def scanLoop : Nat → Iterator → Option (List (Bytes × Bytes))
  | 0, _ => none
  | fuel + 1, itr =>
    if itr.Valid then
      match itr.Key, itr.Value, scanLoop fuel itr.Next with
      | some k, some v, some r => some ((k, v) :: r)
      | _, _, _ => none
    else some []

/-- The scan of `checkItrResults`: `itr.SeekToFirst()` and then the loop, collecting the
`Key()` and `Value()` results in order. -/
def scanAll (fuel : Nat) (itr : Iterator) : Option (List (Bytes × Bytes)) :=
  scanLoop fuel itr.SeekToFirst

/-! ## The engine as an ordered map -/

/-- An engine call, as recorded in the call log of `World`. -/
inductive EngineCall where
  | NewKVDB
  | DeleteKVDB (c : Option KVDB)
  | Get (c : KVDB) (key : Bytes)
  | Put (c : KVDB) (key value : Bytes)
  | Delete (c : KVDB) (key : Bytes)
  | Write (c : KVDB) (batch : WriteBatch)
  | NewIterator (c : KVDB)
deriving DecidableEq, Repr

/-- Modelled from the spec: the `ustore` engine, absent from the sources, as an ordered
map (spec 6): `store` holds the entries in ascending key order, `created` and `destroyed`
count the `NewKVDB` and `DeleteKVDB` calls, `calls` is the log of every engine call, the
latest last. -/
structure World where
  store : List (Bytes × Bytes)
  created : Nat
  destroyed : Nat
  calls : List EngineCall
deriving DecidableEq, Repr

/-- Insert or overwrite `key` in a store, keeping ascending key order. -/
def storePut (key value : Bytes) : List (Bytes × Bytes) → List (Bytes × Bytes)
  | [] => [(key, value)]
  | e :: t =>
    if bytesLt key e.1 then (key, value) :: e :: t
    else if key = e.1 then (key, value) :: t
    else e :: storePut key value t

/-- Remove `key` from a store. -/
def storeDelete (key : Bytes) (s : List (Bytes × Bytes)) : List (Bytes × Bytes) :=
  s.filter fun e => e.1 != key

/-- Apply one operation of a write batch to a store. -/
def storeApply (s : List (Bytes × Bytes)) : BatchOp → List (Bytes × Bytes)
  | BatchOp.Put k v => storePut k v s
  | BatchOp.Delete k => storeDelete k s

/-- Status of a successful engine call. -/
def Status.ok : Status := { Ok := true, IsNotFound := false, ToString := "OK" }

/-- Status of an engine read that found no entry. -/
def Status.notFound : Status := { Ok := false, IsNotFound := true, ToString := "NotFound" }

/-- Modelled from the spec: the `ustore` engine as an ordered map that never fails: `Get`
reports `NotFound` (with an empty value) for a missing key, `Write` applies the operations
of the batch in order, an iterator ranges over the entries in ascending key order. -/
def mapEngine : KVEngine World where
  NewKVDB w :=
    (w.created, { w with created := w.created + 1, calls := w.calls ++ [EngineCall.NewKVDB] })
  DeleteKVDB c w :=
    { w with destroyed := w.destroyed + 1, calls := w.calls ++ [EngineCall.DeleteKVDB c] }
  Get c key w :=
    (match w.store.lookup key with
      | some v => (Status.ok, v)
      | none => (Status.notFound, []),
     { w with calls := w.calls ++ [EngineCall.Get c key] })
  Put c key value w :=
    (Status.ok,
     { w with store := storePut key value w.store, calls := w.calls ++ [EngineCall.Put c key value] })
  Delete c key w :=
    (Status.ok,
     { w with store := storeDelete key w.store, calls := w.calls ++ [EngineCall.Delete c key] })
  Write c batch w :=
    (Status.ok,
     { w with store := batch.foldl storeApply w.store, calls := w.calls ++ [EngineCall.Write c batch] })
  NewIterator c w :=
    ({ entries := w.store, startK := [], endK := [], rest := [] },
     { w with calls := w.calls ++ [EngineCall.NewIterator c] })

/-- The store is an ordered map: keys strictly ascending (hence unique). -/
def StoreSorted (s : List (Bytes × Bytes)) : Prop :=
  s.Pairwise fun a b => bytesLt a.1 b.1 = true

/-- An Opened engine handle: the state `DB.Open` leaves. -/
def DB.Opened (dbInst : DB) : Prop :=
  dbInst.dbState = dbState.opened ∧ dbInst.init = true ∧ dbInst.db ≠ none

instance (dbInst : DB) : Decidable dbInst.Opened := by
  unfold DB.Opened
  infer_instance

instance (s : List (Bytes × Bytes)) : Decidable (StoreSorted s) := by
  unfold StoreSorted
  infer_instance

instance (batch : UpdateBatch) : Decidable batch.WF := by
  unfold UpdateBatch.WF
  infer_instance

/-! ## Sequences of calls on an `UpdateBatch` -/

/-- A call on an `UpdateBatch`: `Put(key, value)` or `Delete(key)`. -/
inductive BatchCall where
  | Put (key : Bytes) (value : Option Bytes)
  | Delete (key : Bytes)
deriving DecidableEq, Repr

/-- The key a call acts on. -/
def BatchCall.key : BatchCall → Bytes
  | BatchCall.Put k _ => k
  | BatchCall.Delete k => k

/-- The entry a call asks for: the value of a `Put`, the nil deletion marker of a `Delete`. -/
def BatchCall.entry : BatchCall → Option Bytes
  | BatchCall.Put _ v => v
  | BatchCall.Delete _ => none

/-- Make one call on a batch: the outcome and the batch after it. -/
def BatchCall.run (batch : UpdateBatch) : BatchCall → Result Unit × UpdateBatch
  | BatchCall.Put k v => batch.Put k v
  | BatchCall.Delete k => batch.Delete k

/-- Make the calls in order, stopping at the first panic. -/
def runCalls : List BatchCall → UpdateBatch → Result Unit × UpdateBatch
  | [], batch => (Result.ok (), batch)
  | c :: cs, batch =>
    match c.run batch with
    | (Result.ok _, b1) => runCalls cs b1
    | (Result.panicked msg, b1) => (Result.panicked msg, b1)

/-- What the last call on `k` in the sequence asks for, `none` where no call acts on `k`:
last-write-wins, in the words of the spec. -/
def lastWrite (calls : List BatchCall) (k : Bytes) : Option (Option Bytes) :=
  (calls.reverse.find? fun c => c.key == k).map BatchCall.entry

/-! ## The unguarded engine handle `DB` (`core/.../ustore_helper.go`) -/

/-- Source (core): `type DB struct`, without the mutex; there is no `init` field.  The core
package declares `dbState` and `Conf` as the common package does. -/
structure Core.DB where
  conf : Conf
  db : Option KVDB
  dbState : dbState
deriving DecidableEq, Repr

/-- Source (core): `CreateDB`. -/
def Core.CreateDB (conf : Conf) : Core.DB :=
  { conf := conf, db := none, dbState := dbState.closed }

/-- Source (core): `DB.Open`. -/
def Core.DB.Open {σ : Type} (E : KVEngine σ) (dbInst : Core.DB) (w : σ) : Core.DB × σ :=
  if dbInst.dbState = Ustorehelper.dbState.opened then (dbInst, w)
  else
    let r := E.NewKVDB w
    ({ dbInst with db := some r.1, dbState := Ustorehelper.dbState.opened }, r.2)

/-- Source (core): `DB.Close`. -/
def Core.DB.Close {σ : Type} (E : KVEngine σ) (dbInst : Core.DB) (w : σ) : Core.DB × σ :=
  if dbInst.dbState = Ustorehelper.dbState.closed then (dbInst, w)
  else ({ dbInst with dbState := Ustorehelper.dbState.closed }, E.DeleteKVDB dbInst.db w)

/-- Source (core): `DB.isOpen`. -/
def Core.DB.isOpen (dbInst : Core.DB) : Bool :=
  decide (dbInst.dbState = Ustorehelper.dbState.opened)

/-- Source (core): `DB.Get`. -/
def Core.DB.Get {σ : Type} (E : KVEngine σ) (dbInst : Core.DB) (key : Bytes) (w : σ) :
    Result ((Option Bytes × Option String) × σ) :=
  match dbInst.db with
  | none => Result.panicked nilDeref
  | some c =>
    let ret := E.Get c key w
    let st := ret.1.1
    let value : Option Bytes := some ret.1.2
    let value := if st.IsNotFound then none else value
    let err : Option String :=
      if st.IsNotFound then none else if !st.Ok then some st.ToString else none
    if err ≠ none then Result.ok ((none, err), ret.2)
    else Result.ok ((value, none), ret.2)

/-- Source (core): `DB.Put`. -/
def Core.DB.Put {σ : Type} (E : KVEngine σ) (dbInst : Core.DB) (key value : Bytes) (w : σ) :
    Result (Option String × σ) :=
  match dbInst.db with
  | none => Result.panicked nilDeref
  | some c =>
    let r := E.Put c key value w
    if !r.1.Ok then Result.ok (some r.1.ToString, r.2)
    else Result.ok (none, r.2)

/-- Source (core): `DB.Delete`. -/
def Core.DB.Delete {σ : Type} (E : KVEngine σ) (dbInst : Core.DB) (key : Bytes) (w : σ) :
    Result (Option String × σ) :=
  match dbInst.db with
  | none => Result.panicked nilDeref
  | some c =>
    let r := E.Delete c key w
    if !r.1.Ok then Result.ok (some r.1.ToString, r.2)
    else Result.ok (none, r.2)

/-- Source (core): `DB.GetIterator`. -/
def Core.DB.GetIterator {σ : Type} (E : KVEngine σ) (dbInst : Core.DB)
    (startKey endKey : Option Bytes) (w : σ) : Result (UstoreIterator × σ) :=
  match dbInst.db with
  | none => Result.panicked nilDeref
  | some c =>
    let r := E.NewIterator c w
    let startK : Bytes := match startKey with
      | some k => k
      | none => []
    let endK : Bytes := match endKey with
      | some k => k
      | none => []
    Result.ok ((r.1.SetRange startK endK).SeekToFirst, r.2)

/-- Source (core): `DB.WriteBatch`. -/
def Core.DB.WriteBatch {σ : Type} (E : KVEngine σ) (dbInst : Core.DB)
    (batch : Ustorehelper.WriteBatch) (w : σ) : Result (Option String × σ) :=
  match dbInst.db with
  | none => Result.panicked nilDeref
  | some c =>
    let r := E.Write c batch w
    if !r.1.Ok then Result.ok (some r.1.ToString, r.2)
    else Result.ok (none, r.2)

/-! ## The namespace registry `Provider` (`ustore_provider.go`) -/

/-- Address of a `DBHandle` object. -/
abbrev HandlePtr := Nat

/-- Source: `type Provider struct { db *DB; dbHandles map[string]*DBHandle; mux }`, without
the mutex.  The map is the list of its entries; a missing key reads as the nil pointer,
which is `none` of `List.lookup`. -/
structure Provider where
  db : DBPtr
  dbHandles : List (Bytes × HandlePtr)
deriving DecidableEq, Repr

/-- The Go objects a `Provider` points to: the `DB` objects and the `DBHandle` objects, each
list indexed by address; `&T{...}` allocates at the end of its list. -/
structure Memory where
  dbs : List DB
  handles : List DBHandle
deriving DecidableEq, Repr

/-- Source: `NewProvider`. -/
def NewProvider {σ : Type} (E : KVEngine σ) (conf : Conf) (mem : Memory) (w : σ) :
    Provider × Memory × σ :=
  let db := CreateDB conf
  let r := DB.Open E db w
  ({ db := mem.dbs.length, dbHandles := [] }, { mem with dbs := mem.dbs ++ [r.1] }, r.2)

/-- Source: `Provider.GetDBHandle`.  Returns the handle pointer, the provider and the
memory after the call. -/
def Provider.GetDBHandle (p : Provider) (dbName : Bytes) (mem : Memory) :
    HandlePtr × Provider × Memory :=
  match p.dbHandles.lookup dbName with
  | some dbHandle => (dbHandle, p, mem)
  | none =>
    let dbHandle := mem.handles.length
    (dbHandle, { p with dbHandles := mapAssign p.dbHandles dbName dbHandle },
      { mem with handles := mem.handles ++ [{ dbName := dbName, db := p.db }] })

/-- The state a `Provider` is in after `NewProvider` and any number of `GetDBHandle` calls:
the cache holds each name once, and the handle cached under a name is an allocated object
with that name, bound to the shared `DB` of the provider. -/
def Provider.WF (p : Provider) (mem : Memory) : Prop :=
  (p.dbHandles.map Prod.fst).Nodup ∧
    ∀ e ∈ p.dbHandles, mem.handles[e.2]? = some { dbName := e.1, db := p.db }

instance (p : Provider) (mem : Memory) : Decidable (p.WF mem) := by
  unfold Provider.WF
  infer_instance

/-! ## The guarded handle against the unguarded one -/

/-- The unguarded handle state with the same fields: the guarded `DB` without `init`. -/
def DB.toCore (dbInst : DB) : Core.DB :=
  { conf := dbInst.conf, db := dbInst.db, dbState := dbInst.dbState }

/-- The handle states a program can reach: the fields of `DB` are unexported and only
`CreateDB`, `Open` and `Close` write them. -/
inductive DB.Reachable {σ : Type} (E : KVEngine σ) : DB → Prop where
  | ofCreateDB (conf : Conf) : DB.Reachable E (CreateDB conf)
  | ofOpen (dbInst : DB) (w : σ) : DB.Reachable E dbInst → DB.Reachable E (DB.Open E dbInst w).1
  | ofClose (dbInst : DB) (w : σ) : DB.Reachable E dbInst → DB.Reachable E (DB.Close E dbInst w).1

/-- A fresh engine: empty store, no call made yet. -/
def World.fresh : World := { store := [], created := 0, destroyed := 0, calls := [] }

/-- The handle state after `CreateDB` and `Open` on a fresh engine. -/
def sampleDB : DB := (DB.Open mapEngine (CreateDB Conf.mk) World.fresh).1

/-- The handle state after `CreateDB`, `Open` and `Close` on a fresh engine. -/
def sampleClosedDB : DB :=
  (DB.Close mapEngine (DB.Open mapEngine (CreateDB Conf.mk) World.fresh).1
    (DB.Open mapEngine (CreateDB Conf.mk) World.fresh).2).1

/-- An engine holding the keys `a`, `b`, `c` of namespace `d1` and the key `a` of namespace
`d2`, after one `NewKVDB` call. -/
def sampleWorld : World :=
  { store := [([0x64, 0x31, 0x00, 0x61], [0x01]), ([0x64, 0x31, 0x00, 0x62], [0x02]),
              ([0x64, 0x31, 0x00, 0x63], [0x03]), ([0x64, 0x32, 0x00, 0x61], [0x04])],
    created := 1, destroyed := 0, calls := [EngineCall.NewKVDB] }

/-- An engine whose every call reports the status `IO error`, neither ok nor not-found,
and changes nothing. -/
def failingEngine : KVEngine Unit where
  NewKVDB w := (0, w)
  DeleteKVDB _ w := w
  Get _ _ w := (({ Ok := false, IsNotFound := false, ToString := "IO error" }, []), w)
  Put _ _ _ w := ({ Ok := false, IsNotFound := false, ToString := "IO error" }, w)
  Delete _ _ w := ({ Ok := false, IsNotFound := false, ToString := "IO error" }, w)
  Write _ _ w := ({ Ok := false, IsNotFound := false, ToString := "IO error" }, w)
  NewIterator _ w := ({ entries := [], startK := [], endK := [], rest := [] }, w)

/-- The core handle state after `CreateDB` and `Open` on a fresh engine. -/
def sampleCoreDB : Core.DB := (Core.DB.Open mapEngine (Core.CreateDB Conf.mk) World.fresh).1

/-- A provider that has cached a handle for the namespace `d1`, with the memory it points
into: one `DB` object and one `DBHandle` object. -/
def sampleProvider : Provider × Memory :=
  ({ db := 0, dbHandles := [([0x64, 0x31], 0)] },
   { dbs := [sampleDB], handles := [{ dbName := [0x64, 0x31], db := 0 }] })

/-- A batch that puts `b` and deletes `a`. -/
def sampleBatch : UpdateBatch := { KVs := some [([0x62], some [0x09]), ([0x61], none)] }

/-- The key an operation of a write batch acts on. -/
def BatchOp.key : BatchOp → Bytes
  | BatchOp.Put k _ => k
  | BatchOp.Delete k => k

/-- What a read of the key finds right after the operation: the value put, or nothing. -/
def BatchOp.result : BatchOp → Option Bytes
  | BatchOp.Put _ v => some v
  | BatchOp.Delete _ => none

/-- The engine operation `DBHandle.WriteBatch` records for one entry of an `UpdateBatch`. -/
def entryOp (dbName : Bytes) (kv : Bytes × Option Bytes) : BatchOp :=
  match kv.2 with
  | none => BatchOp.Delete (constructLevelKey dbName kv.1)
  | some v => BatchOp.Put (constructLevelKey dbName kv.1) v

/-! ## Lemmas on the byte order -/

theorem bytesLt_irrefl (a : Bytes) : bytesLt a a = false := by
  induction a with
  | nil => rfl
  | cons x t ih => simp [bytesLt, ih]

theorem bytesLt_append_left (n a b : Bytes) : bytesLt (n ++ a) (n ++ b) = bytesLt a b := by
  induction n with
  | nil => rfl
  | cons x t ih => simp [bytesLt, ih]

theorem bytesLe_append_left (n a b : Bytes) : bytesLe (n ++ a) (n ++ b) = bytesLe a b := by
  simp [bytesLe, bytesLt_append_left]

theorem bytesLe_nil (a : Bytes) : bytesLe [] a = true := by
  cases a <;> simp [bytesLe, bytesLt]

theorem bytesLt_trans {a b c : Bytes} (h1 : bytesLt a b = true) (h2 : bytesLt b c = true) :
    bytesLt a c = true := by
  induction a generalizing b c with
  | nil =>
    cases c with
    | nil => cases b <;> simp [bytesLt] at h2
    | cons z cs => rfl
  | cons x as ih =>
    cases b with
    | nil => simp [bytesLt] at h1
    | cons y bs =>
      cases c with
      | nil => simp [bytesLt] at h2
      | cons z cs =>
        simp only [bytesLt, Bool.or_eq_true, Bool.and_eq_true, decide_eq_true_eq,
          beq_iff_eq] at h1 h2 ⊢
        rcases h1 with h1 | ⟨h1, h1t⟩
        · rcases h2 with h2 | ⟨h2, _⟩
          · exact Or.inl (lt_trans h1 h2)
          · exact Or.inl (h2 ▸ h1)
        · rcases h2 with h2 | ⟨h2, h2t⟩
          · exact Or.inl (h1 ▸ h2)
          · exact Or.inr ⟨h1.trans h2, ih h1t h2t⟩

/-- Every key of a namespace sorts below the namespace name followed by `0x01`. -/
theorem levelKey_lt_sentinel (n k : Bytes) :
    bytesLt (constructLevelKey n k) (n ++ [lastKeyIndicator]) = true := by
  simp only [constructLevelKey, List.append_assoc, bytesLt_append_left]
  simp [dbNameKeySep, lastKeyIndicator, bytesLt]

/-! ## Lemmas on the key codec -/

theorem bytesIndex_sep (n k : Bytes) (hn : (0 : Byte) ∉ n) :
    bytesIndex (n ++ (0 : Byte) :: k) [0] = some n.length := by
  induction n with
  | nil => simp [bytesIndex, List.isPrefixOf]
  | cons x t ih =>
    simp only [List.mem_cons, not_or] at hn
    have hx : ¬ x = 0 := fun e => hn.1 e.symm
    simp [bytesIndex, List.isPrefixOf, hx, hn.1, ih hn.2]

theorem retrieveAppKey_levelKey (n k : Bytes) (hn : (0 : Byte) ∉ n) :
    retrieveAppKey (constructLevelKey n k) = some k := by
  have h := bytesIndex_sep n k hn
  simp only [List.cons_append, List.nil_append, constructLevelKey, dbNameKeySep,
    List.append_assoc] at h ⊢
  simp [retrieveAppKey, SplitN, dbNameKeySep, genSplitLoop, h]

/-- A physical key splits in one way only into a separator-free name and a raw key. -/
theorem levelKey_inj (n1 n2 k1 k2 : Bytes) (h1 : (0 : Byte) ∉ n1) (h2 : (0 : Byte) ∉ n2)
    (h : constructLevelKey n1 k1 = constructLevelKey n2 k2) : n1 = n2 ∧ k1 = k2 := by
  simp only [constructLevelKey, dbNameKeySep, List.append_assoc, List.cons_append,
    List.nil_append] at h
  induction n1 generalizing n2 with
  | nil =>
    cases n2 with
    | nil => simpa using h
    | cons y t2 =>
      simp only [List.nil_append, List.cons_append, List.cons.injEq] at h
      exact absurd (List.mem_cons.2 (Or.inl h.1)) h2
  | cons x t1 ih =>
    cases n2 with
    | nil =>
      simp only [List.nil_append, List.cons_append, List.cons.injEq] at h
      exact absurd (List.mem_cons.2 (Or.inl h.1.symm)) h1
    | cons y t2 =>
      simp only [List.cons_append, List.cons.injEq] at h
      simp only [List.mem_cons, not_or] at h1 h2
      obtain ⟨e1, e2⟩ := ih t2 h1.2 h2.2 h.2
      exact ⟨by rw [h.1, e1], e2⟩

/-- Within one namespace the physical key determines the raw key. -/
theorem levelKey_inj_key (n k1 k2 : Bytes)
    (h : constructLevelKey n k1 = constructLevelKey n k2) : k1 = k2 := by
  simpa [constructLevelKey] using h

/-- With one raw key the physical key determines the namespace name. -/
theorem levelKey_inj_name (n1 n2 k : Bytes)
    (h : constructLevelKey n1 k = constructLevelKey n2 k) : n1 = n2 := by
  simpa [constructLevelKey] using h

/-- A physical key between `n ++ [0x00] ++ s` (inclusive) and `n ++ [0x01]` (exclusive)
is a key of the namespace `n`. -/
theorem levelKey_of_inRange (n s p : Bytes) (h1 : bytesLe (constructLevelKey n s) p = true)
    (h2 : bytesLt p (n ++ [lastKeyIndicator]) = true) :
    ∃ r, p = constructLevelKey n r := by
  simp only [constructLevelKey, dbNameKeySep, List.append_assoc, List.cons_append,
    List.nil_append, lastKeyIndicator] at h1 h2 ⊢
  induction n generalizing p with
  | nil =>
    cases p with
    | nil => simp [bytesLe, bytesLt] at h1
    | cons b r =>
      refine ⟨r, ?_⟩
      simp only [List.nil_append, bytesLt, Bool.and_false, Bool.or_false,
        decide_eq_true_eq] at h2
      have : b = 0 := Fin.ext (by have h3 := Fin.lt_def.1 h2; simpa using h3)
      simp [this]
  | cons a t ih =>
    cases p with
    | nil => simp [bytesLe, bytesLt] at h1
    | cons b r =>
      simp only [List.cons_append, bytesLe, bytesLt, Bool.not_eq_true', Bool.or_eq_false_iff,
        Bool.and_eq_false_imp, decide_eq_false_iff_not, beq_iff_eq, Bool.or_eq_true,
        Bool.and_eq_true, decide_eq_true_eq] at h1 h2
      rcases h2 with h2 | ⟨h2, h2t⟩
      · exact absurd h2 h1.1
      · subst h2
        have hle : bytesLe (t ++ (0 : Byte) :: s) r = true := by
          simp only [bytesLe, Bool.not_eq_true']
          exact h1.2 rfl
        obtain ⟨r2, hr2⟩ := ih r (by assumption) (by assumption)
        exact ⟨r2, by simp [hr2]⟩

/-! ## Lemmas on the ordered-map engine -/

theorem lookup_storePut_self (k v : Bytes) (s : List (Bytes × Bytes)) :
    (storePut k v s).lookup k = some v := by
  induction s with
  | nil => simp [storePut, List.lookup]
  | cons e t ih =>
    unfold storePut
    split
    · simp [List.lookup]
    · split
      · simp [List.lookup]
      · rename_i hne
        have : (k == e.1) = false := by simpa using hne
        simp [List.lookup, this, ih]

theorem lookup_storePut_ne (k q v : Bytes) (s : List (Bytes × Bytes)) (h : q ≠ k) :
    (storePut k v s).lookup q = s.lookup q := by
  have hq : (q == k) = false := by simpa using h
  induction s with
  | nil => simp [storePut, List.lookup, hq]
  | cons e t ih =>
    unfold storePut
    split
    · simp [List.lookup, hq]
    · split
      · rename_i heq
        have : (q == e.1) = false := by rw [← heq]; exact hq
        simp [List.lookup, hq, this]
      · cases hqe : q == e.1 <;> simp [List.lookup, hqe, ih]

theorem lookup_storeDelete_self (k : Bytes) (s : List (Bytes × Bytes)) :
    (storeDelete k s).lookup k = none := by
  induction s with
  | nil => simp [storeDelete]
  | cons e t ih =>
    unfold storeDelete at ih ⊢
    by_cases he : e.1 = k
    · simp [List.filter, he, ih]
    · have h1 : (e.1 != k) = true := by simpa using he
      have h2 : (k == e.1) = false := by simpa using fun x => he x.symm
      simp [List.filter, h1, List.lookup, h2, ih]

theorem lookup_storeDelete_ne (k q : Bytes) (s : List (Bytes × Bytes)) (h : q ≠ k) :
    (storeDelete k s).lookup q = s.lookup q := by
  induction s with
  | nil => simp [storeDelete]
  | cons e t ih =>
    unfold storeDelete at ih ⊢
    by_cases he : e.1 = k
    · have h2 : (q == k) = false := by simpa using h
      obtain ⟨e1, e2⟩ := e
      simp only at he
      subst he
      simp [List.filter, ih, List.lookup, h2]
    · have h1 : (e.1 != k) = true := by simpa using he
      cases hqe : q == e.1 <;> simp [List.filter, h1, List.lookup, hqe, ih]

theorem lookup_storeApply_self (op : BatchOp) (s : List (Bytes × Bytes)) :
    (storeApply s op).lookup op.key = op.result := by
  cases op with
  | Put k v => exact lookup_storePut_self k v s
  | Delete k => exact lookup_storeDelete_self k s

theorem lookup_storeApply_ne (op : BatchOp) (q : Bytes) (s : List (Bytes × Bytes))
    (h : q ≠ op.key) : (storeApply s op).lookup q = s.lookup q := by
  cases op with
  | Put k v => exact lookup_storePut_ne k q v s h
  | Delete k => exact lookup_storeDelete_ne k q s h

/-- A key no operation of the batch acts on reads the same after the write. -/
theorem lookup_foldl_storeApply_ne (ops : List BatchOp) (q : Bytes) (s : List (Bytes × Bytes))
    (h : q ∉ ops.map BatchOp.key) : (ops.foldl storeApply s).lookup q = s.lookup q := by
  induction ops generalizing s with
  | nil => rfl
  | cons op t ih =>
    simp only [List.map_cons, List.mem_cons, not_or] at h
    simp only [List.foldl_cons]
    rw [ih _ h.2, lookup_storeApply_ne op q s h.1]

/-- With one operation per key, a key of the batch reads as its operation left it. -/
theorem lookup_foldl_storeApply_mem (ops : List BatchOp) (op : BatchOp)
    (s : List (Bytes × Bytes)) (hnd : (ops.map BatchOp.key).Nodup) (hop : op ∈ ops) :
    (ops.foldl storeApply s).lookup op.key = op.result := by
  induction ops generalizing s with
  | nil => simp at hop
  | cons o t ih =>
    simp only [List.map_cons, List.nodup_cons] at hnd
    simp only [List.foldl_cons]
    rcases List.mem_cons.1 hop with h | h
    · subst h
      rw [lookup_foldl_storeApply_ne t _ _ hnd.1, lookup_storeApply_self]
    · exact ih _ hnd.2 h

theorem foldl_addToBatch (dbName : Bytes) (l : List (Bytes × Option Bytes)) (acc : WriteBatch) :
    l.foldl (addToBatch dbName) acc = acc ++ l.map (entryOp dbName) := by
  induction l generalizing acc with
  | nil => simp
  | cons e t ih =>
    obtain ⟨k, v⟩ := e
    cases v <;>
      simp [List.foldl_cons, ih, addToBatch, entryOp, WriteBatch.Put, WriteBatch.Delete]

theorem entryOp_key (dbName : Bytes) (kv : Bytes × Option Bytes) :
    (entryOp dbName kv).key = constructLevelKey dbName kv.1 := by
  obtain ⟨k, v⟩ := kv
  cases v <;> rfl

theorem entryOp_result (dbName : Bytes) (kv : Bytes × Option Bytes) :
    (entryOp dbName kv).result = kv.2 := by
  obtain ⟨k, v⟩ := kv
  cases v <;> rfl

/-! ## `DB` on the ordered-map engine, handle Opened -/

theorem DB.Opened_db {dbInst : DB} (h : dbInst.Opened) : ∃ c, dbInst.db = some c := by
  obtain ⟨_, _, h3⟩ := h
  cases hdb : dbInst.db with
  | none => exact absurd hdb h3
  | some c => exact ⟨c, rfl⟩

theorem DB.Get_mapEngine (dbInst : DB) (c : KVDB) (key : Bytes) (w : World)
    (h : dbInst.Opened) (hc : dbInst.db = some c) :
    DB.Get mapEngine dbInst key w =
      Result.ok ((w.store.lookup key, none),
        { w with calls := w.calls ++ [EngineCall.Get c key] }) := by
  obtain ⟨h1, h2, _⟩ := h
  cases hl : w.store.lookup key <;>
    simp [DB.Get, h1, h2, hc, mapEngine, hl, Status.ok, Status.notFound]

theorem DB.Put_mapEngine (dbInst : DB) (c : KVDB) (key value : Bytes) (w : World)
    (h : dbInst.Opened) (hc : dbInst.db = some c) :
    DB.Put mapEngine dbInst key value w =
      Result.ok (none, { w with store := storePut key value w.store,
                                calls := w.calls ++ [EngineCall.Put c key value] }) := by
  obtain ⟨h1, h2, _⟩ := h
  simp [DB.Put, h1, h2, hc, mapEngine, Status.ok]

theorem DB.Delete_mapEngine (dbInst : DB) (c : KVDB) (key : Bytes) (w : World)
    (h : dbInst.Opened) (hc : dbInst.db = some c) :
    DB.Delete mapEngine dbInst key w =
      Result.ok (none, { w with store := storeDelete key w.store,
                                calls := w.calls ++ [EngineCall.Delete c key] }) := by
  obtain ⟨h1, h2, _⟩ := h
  simp [DB.Delete, h1, h2, hc, mapEngine, Status.ok]

theorem DB.WriteBatch_mapEngine (dbInst : DB) (c : KVDB) (batch : Ustorehelper.WriteBatch)
    (w : World)
    (h : dbInst.Opened) (hc : dbInst.db = some c) :
    DB.WriteBatch mapEngine dbInst batch w =
      Result.ok (none, { w with store := batch.foldl storeApply w.store,
                                calls := w.calls ++ [EngineCall.Write c batch] }) := by
  obtain ⟨h1, h2, _⟩ := h
  simp [DB.WriteBatch, h1, hc, mapEngine, Status.ok]

theorem DB.GetIterator_mapEngine (dbInst : DB) (c : KVDB) (sKey eKey : Bytes) (w : World)
    (h : dbInst.Opened) (hc : dbInst.db = some c) :
    DB.GetIterator mapEngine dbInst (some sKey) (some eKey) w =
      Result.ok ({ entries := w.store, startK := sKey, endK := eKey,
                   rest := w.store.filter fun e => inRange sKey eKey e.1 },
        { w with calls := w.calls ++ [EngineCall.NewIterator c] }) := by
  obtain ⟨h1, h2, _⟩ := h
  simp [DB.GetIterator, h1, hc, mapEngine, UstoreIterator.SetRange, UstoreIterator.SeekToFirst]

/-- On an Opened handle over the map engine, `DBHandle.Get` returns what the store holds
under the physical key, with no error, and logs one engine `Get`. -/
theorem DBHandle.Get_of_lookup (h : DBHandle) (dbInst : DB) (c : KVDB) (k : Bytes) (w : World)
    (r : Option Bytes) (hop : dbInst.Opened) (hc : dbInst.db = some c)
    (hl : w.store.lookup (constructLevelKey h.dbName k) = r) :
    DBHandle.Get mapEngine h dbInst k w =
      Result.ok ((r, none),
        { w with calls := w.calls ++ [EngineCall.Get c (constructLevelKey h.dbName k)] }) := by
  unfold DBHandle.Get
  rw [DB.Get_mapEngine dbInst c _ _ hop hc, hl]

/-- On an Opened handle over the map engine, `DBHandle.WriteBatch` returns no error,
applies the operations of the batch to the store and logs one engine `Write`. -/
theorem DBHandle.WriteBatch_store (h : DBHandle) (dbInst : DB) (c : KVDB)
    (batch : UpdateBatch) (w : World) (hop : dbInst.Opened) (hc : dbInst.db = some c) :
    DBHandle.WriteBatch mapEngine h dbInst batch w =
      Result.ok (none,
        { w with store := (batch.entries.map (entryOp h.dbName)).foldl storeApply w.store,
                 calls := w.calls ++ [EngineCall.Write c (batch.entries.map (entryOp h.dbName))] }) := by
  unfold DBHandle.WriteBatch
  simp only [foldl_addToBatch, NewWriteBatch, List.nil_append]
  rw [DB.WriteBatch_mapEngine dbInst c _ w hop hc]
  simp

theorem batch_lookup_mem (n : Bytes) (entries : List (Bytes × Option Bytes))
    (s : List (Bytes × Bytes)) (k : Bytes) (v : Option Bytes)
    (hnd : (entries.map Prod.fst).Nodup) (hmem : (k, v) ∈ entries) :
    ((entries.map (entryOp n)).foldl storeApply s).lookup (constructLevelKey n k) = v := by
  have hkeys : (entries.map (entryOp n)).map BatchOp.key
      = (entries.map Prod.fst).map (constructLevelKey n) := by
    simp only [List.map_map]
    exact List.map_congr_left fun e _ => entryOp_key n e
  have hnd2 : ((entries.map (entryOp n)).map BatchOp.key).Nodup := by
    rw [hkeys]
    exact hnd.map fun a b e => levelKey_inj_key n a b e
  have := lookup_foldl_storeApply_mem (entries.map (entryOp n)) (entryOp n (k, v)) s hnd2
    (List.mem_map_of_mem _ hmem)
  rwa [entryOp_key, entryOp_result] at this

theorem batch_lookup_not_mem (n : Bytes) (entries : List (Bytes × Option Bytes))
    (s : List (Bytes × Bytes)) (k : Bytes) (hk : k ∉ entries.map Prod.fst) :
    ((entries.map (entryOp n)).foldl storeApply s).lookup (constructLevelKey n k)
      = s.lookup (constructLevelKey n k) := by
  apply lookup_foldl_storeApply_ne
  intro hm
  simp only [List.map_map, List.mem_map, Function.comp_apply] at hm
  obtain ⟨e, he, hek⟩ := hm
  rw [entryOp_key] at hek
  exact hk (List.mem_map.2 ⟨e, he, levelKey_inj_key n _ _ hek⟩)

/-- On an Opened handle over the map engine, `DB.Get` returns what the store holds under
the key, with no error. -/
theorem DB.Get_of_store (dbInst : DB) (c : KVDB) (k : Bytes) (w : World) (r : Option Bytes)
    (hop : dbInst.Opened) (hc : dbInst.db = some c) (hl : w.store.lookup k = r) :
    DB.Get mapEngine dbInst k w =
      Result.ok ((r, none), { w with calls := w.calls ++ [EngineCall.Get c k] }) := by
  rw [DB.Get_mapEngine dbInst c _ _ hop hc, hl]

/-- The order `bytesLt` is the lexicographic order of lists of bytes. -/
theorem bytesLt_iff_lex (a b : Bytes) : bytesLt a b = true ↔ List.Lex (· < ·) a b := by
  induction a generalizing b with
  | nil =>
    cases b with
    | nil => simp [bytesLt]
    | cons y bs => simp [bytesLt, List.Lex.nil]
  | cons x as ih =>
    cases b with
    | nil => simp [bytesLt]
    | cons y bs =>
      simp only [bytesLt, Bool.or_eq_true, Bool.and_eq_true, decide_eq_true_eq, beq_iff_eq, ih]
      constructor
      · rintro (h | ⟨rfl, h⟩)
        · exact List.Lex.rel h
        · exact List.Lex.cons h
      · intro h
        cases h with
        | cons h => exact Or.inr ⟨rfl, h⟩
        | rel h => exact Or.inl h

/-- The state `DB.Open` leaves is Opened. -/
theorem DB.Open_Opened {σ : Type} (E : KVEngine σ) (dbInst : DB) (w : σ)
    (h : dbInst.dbState = dbState.opened → dbInst.Opened) : (DB.Open E dbInst w).1.Opened := by
  unfold DB.Open
  split
  · rename_i ho
    exact h ho
  · simp [DB.Opened]

theorem set_last_sep (n : Bytes) (b : Byte) :
    (n ++ dbNameKeySep).set ((n ++ dbNameKeySep).length - 1) b = n ++ [b] := by
  induction n with
  | nil => rfl
  | cons x t ih =>
    simp only [dbNameKeySep, List.length_append, List.length_cons, List.length_nil,
      List.cons_append] at ih ⊢
    simp [ih]

/-- The end bound of an unbounded scan is the namespace name followed by `0x01`. -/
theorem iterBounds_nil_end (h : DBHandle) (startKey : Option Bytes) :
    (h.iterBounds startKey none).2 = h.dbName ++ [lastKeyIndicator] := by
  simp only [DBHandle.iterBounds, bytesOf, constructLevelKey, List.append_nil, if_true]
  exact set_last_sep h.dbName lastKeyIndicator

theorem iterBounds_start (h : DBHandle) (startKey endKey : Option Bytes) :
    (h.iterBounds startKey endKey).1 = constructLevelKey h.dbName (bytesOf startKey) := rfl

theorem iterBounds_some_end (h : DBHandle) (startKey : Option Bytes) (e : Bytes) :
    (h.iterBounds startKey (some e)).2 = constructLevelKey h.dbName e := by
  simp [DBHandle.iterBounds, bytesOf]

/-! ## Lemmas on range scans -/

/-- On an Opened handle over the map engine, `DBHandle.GetIterator` returns a cursor over
the store, positioned on the entries of the range it computed. -/
theorem DBHandle.GetIterator_cursor (h : DBHandle) (dbInst : DB) (c : KVDB)
    (startKey endKey : Option Bytes) (w : World) (hop : dbInst.Opened)
    (hc : dbInst.db = some c) :
    DBHandle.GetIterator mapEngine h dbInst startKey endKey w =
      Result.ok
        ({ cursor :=
            { entries := w.store,
              startK := (h.iterBounds startKey endKey).1,
              endK := (h.iterBounds startKey endKey).2,
              rest := w.store.filter fun e =>
                inRange (h.iterBounds startKey endKey).1 (h.iterBounds startKey endKey).2 e.1 } },
         { w with calls := w.calls ++ [EngineCall.NewIterator c] }) := by
  unfold DBHandle.GetIterator
  simp only [DB.GetIterator_mapEngine dbInst c _ _ w hop hc]

/-- The bounds `DBHandle.GetIterator` computes are never empty. -/
theorem iterBounds_end_ne_nil (h : DBHandle) (startKey endKey : Option Bytes) :
    ((h.iterBounds startKey endKey).2 == []) = false := by
  cases endKey with
  | none => rw [iterBounds_nil_end]; cases h.dbName <;> rfl
  | some e =>
    rw [iterBounds_some_end]
    cases hn : h.dbName <;> simp [constructLevelKey, dbNameKeySep]

/-- The upper bound of a scan, bounded or not, admits exactly the keys below `endKey`. -/
theorem iterBounds_lt_end (h : DBHandle) (startKey endKey : Option Bytes) (k : Bytes) :
    bytesLt (constructLevelKey h.dbName k) (h.iterBounds startKey endKey).2 = true
      ↔ ∀ e, endKey = some e → bytesLt k e = true := by
  cases endKey with
  | none =>
    rw [iterBounds_nil_end]
    simp [levelKey_lt_sentinel]
  | some e =>
    rw [iterBounds_some_end]
    simp [constructLevelKey, bytesLt_append_left]

/-- The lower bound of a scan admits exactly the keys from `startKey` on. -/
theorem iterBounds_le_start (h : DBHandle) (startKey endKey : Option Bytes) (k : Bytes) :
    bytesLe (h.iterBounds startKey endKey).1 (constructLevelKey h.dbName k) = true
      ↔ ∀ s, startKey = some s → bytesLe s k = true := by
  rw [iterBounds_start]
  cases startKey with
  | none =>
    have hk := bytesLe_append_left (h.dbName ++ dbNameKeySep) [] k
    simp only [List.append_nil] at hk
    simp only [constructLevelKey, bytesOf, List.append_nil, hk, bytesLe_nil]
    simp
  | some s => simp [constructLevelKey, bytesLe_append_left, bytesOf]

theorem inRange_iterBounds (h : DBHandle) (startKey endKey : Option Bytes) (k : Bytes) :
    inRange (h.iterBounds startKey endKey).1 (h.iterBounds startKey endKey).2
        (constructLevelKey h.dbName k) = true
      ↔ (∀ s, startKey = some s → bytesLe s k = true) ∧
        (∀ e, endKey = some e → bytesLt k e = true) := by
  simp only [inRange, Bool.and_eq_true, Bool.or_eq_true, iterBounds_end_ne_nil, false_or,
    iterBounds_le_start, iterBounds_lt_end, Bool.false_eq_true]

/-- Every physical key in the range of a scan of namespace `n` is a key of `n`. -/
theorem levelKey_of_inRange_iterBounds (h : DBHandle) (startKey endKey : Option Bytes)
    (p : Bytes)
    (hp : inRange (h.iterBounds startKey endKey).1 (h.iterBounds startKey endKey).2 p = true) :
    ∃ r, p = constructLevelKey h.dbName r := by
  simp only [inRange, Bool.and_eq_true, Bool.or_eq_true, iterBounds_end_ne_nil, false_or,
    Bool.false_eq_true] at hp
  rw [iterBounds_start] at hp
  apply levelKey_of_inRange h.dbName (bytesOf startKey) p hp.1
  cases endKey with
  | none => rw [iterBounds_nil_end] at hp; exact hp.2
  | some e =>
    rw [iterBounds_some_end] at hp
    exact bytesLt_trans hp.2 (levelKey_lt_sentinel h.dbName e)

/-- The raw key and value the scan loop reports for an entry of namespace `n`. -/
theorem scanLoop_levelKeys (n : Bytes) (hz : (0 : Byte) ∉ n) (a : List (Bytes × Bytes))
    (sK eK : Bytes) (l : List (Bytes × Bytes))
    (hl : ∀ e ∈ l, ∃ r, e.1 = constructLevelKey n r) (fuel : Nat) (hf : l.length < fuel) :
    scanLoop fuel { cursor := { entries := a, startK := sK, endK := eK, rest := l } }
      = some (l.map fun e => (e.1.drop (n.length + 1), e.2)) := by
  induction l generalizing fuel with
  | nil =>
    cases fuel with
    | zero => simp at hf
    | succ f => simp [scanLoop, Iterator.Valid, UstoreIterator.Valid]
  | cons e t ih =>
    cases fuel with
    | zero => simp at hf
    | succ f =>
      obtain ⟨r, hr⟩ := hl e (List.mem_cons_self _ _)
      have hkey : retrieveAppKey e.1 = some r := by rw [hr]; exact retrieveAppKey_levelKey n r hz
      have hdrop : e.1.drop (n.length + 1) = r := by
        rw [hr]
        simp [constructLevelKey, dbNameKeySep, List.drop_append]
      have ht := ih (fun x hx => hl x (List.mem_cons_of_mem _ hx)) f
        (by simpa using hf)
      simp only [scanLoop, Iterator.Valid, UstoreIterator.Valid, Iterator.Key,
        UstoreIterator.Key, Iterator.Value, UstoreIterator.Value, Iterator.Next,
        UstoreIterator.Next, List.isEmpty_cons, Bool.not_false, if_true, List.head?_cons,
        Option.map_some', Option.some_bind, List.tail_cons, hkey, ht, List.map_cons, hdrop]

/-- In an ordered store a key holds the value the store lists for it. -/
theorem lookup_eq_some_iff_mem (s : List (Bytes × Bytes)) (hs : StoreSorted s) (p v : Bytes) :
    s.lookup p = some v ↔ (p, v) ∈ s := by
  induction s with
  | nil => simp
  | cons e t ih =>
    obtain ⟨k, x⟩ := e
    have hs2 := List.pairwise_cons.1 hs
    by_cases hpk : p = k
    · subst hpk
      simp only [List.lookup, beq_self_eq_true, Option.some.injEq, List.mem_cons, Prod.mk.injEq,
        true_and]
      constructor
      · intro hx; exact Or.inl hx.symm
      · rintro (hx | hx)
        · exact hx.symm
        · have := hs2.1 _ hx
          simp [bytesLt_irrefl] at this
    · have hb : (p == k) = false := by simpa using hpk
      simp only [List.lookup, hb, List.mem_cons, Prod.mk.injEq, hpk, false_and, false_or]
      exact ih hs2.2

/-! ## Lemmas on Go map assignment -/

theorem any_key_iff {β : Type} (m : List (Bytes × β)) (k : Bytes) :
    m.any (fun e => e.1 == k) = true ↔ k ∈ m.map Prod.fst := by
  simp only [List.any_eq_true, beq_iff_eq, List.mem_map]

theorem lookup_none_of_not_key {β : Type} (m : List (Bytes × β)) (k : Bytes)
    (h : k ∉ m.map Prod.fst) : m.lookup k = none := by
  rw [List.lookup_eq_none_iff]
  intro e he
  simp only [bne_iff_ne, ne_eq]
  intro hk
  exact h (List.mem_map.2 ⟨e, he, hk.symm⟩)

theorem not_key_of_lookup_none {β : Type} (m : List (Bytes × β)) (k : Bytes)
    (h : m.lookup k = none) : k ∉ m.map Prod.fst := by
  rw [List.lookup_eq_none_iff] at h
  intro hk
  obtain ⟨e, he, hek⟩ := List.mem_map.1 hk
  have := h e he
  simp [hek] at this

/-- Assigning in place keeps the keys of the map. -/
theorem map_fst_replace {β : Type} (m : List (Bytes × β)) (k : Bytes) (v : β) :
    (m.map fun e => if e.1 == k then (k, v) else e).map Prod.fst = m.map Prod.fst := by
  rw [List.map_map]
  apply List.map_congr_left
  intro e _
  by_cases h : e.1 = k <;> simp [h]

theorem lookup_replace_self {β : Type} (m : List (Bytes × β)) (k : Bytes) (v : β)
    (h : k ∈ m.map Prod.fst) :
    (m.map fun e => if e.1 == k then (k, v) else e).lookup k = some v := by
  induction m with
  | nil => simp at h
  | cons e t ih =>
    obtain ⟨a, b⟩ := e
    simp only [List.map_cons]
    by_cases he : a = k
    · have hf : (if (a == k) = true then (k, v) else (a, b)) = (k, v) := by simp [he]
      rw [hf, List.lookup_cons_self]
    · have hf : (if (a == k) = true then (k, v) else (a, b)) = (a, b) := by simp [he]
      have hne : (k == a) = false := by simpa using fun x => he x.symm
      have ht : k ∈ t.map Prod.fst := by
        rcases List.mem_cons.1 h with h | h
        · exact absurd h.symm he
        · exact h
      rw [hf, List.lookup_cons, hne]
      exact ih ht

theorem lookup_replace_ne {β : Type} (m : List (Bytes × β)) (k q : Bytes) (v : β)
    (h : q ≠ k) :
    (m.map fun e => if e.1 == k then (k, v) else e).lookup q = m.lookup q := by
  have hq : (q == k) = false := by simpa using h
  induction m with
  | nil => rfl
  | cons e t ih =>
    obtain ⟨a, b⟩ := e
    simp only [List.map_cons]
    by_cases he : a = k
    · have hf : (if (a == k) = true then (k, v) else (a, b)) = (k, v) := by simp [he]
      rw [hf, List.lookup_cons, List.lookup_cons, hq, he, hq]
      exact ih
    · have hf : (if (a == k) = true then (k, v) else (a, b)) = (a, b) := by simp [he]
      rw [hf, List.lookup_cons, List.lookup_cons, ih]

/-- After `m[k] = v` the map reads `v` at `k` and is unchanged elsewhere. -/
theorem lookup_mapAssign {β : Type} (m : List (Bytes × β)) (k q : Bytes) (v : β) :
    (mapAssign m k v).lookup q = if q = k then some v else m.lookup q := by
  unfold mapAssign
  by_cases hany : m.any (fun e => e.1 == k) = true
  · rw [if_pos hany]
    by_cases hq : q = k
    · subst hq
      rw [if_pos rfl]
      exact lookup_replace_self m q v ((any_key_iff m q).1 hany)
    · rw [if_neg hq]
      exact lookup_replace_ne m k q v hq
  · rw [if_neg hany]
    have hk : k ∉ m.map Prod.fst := fun h => hany ((any_key_iff m k).2 h)
    rw [List.lookup_append]
    by_cases hq : q = k
    · subst hq
      simp [lookup_none_of_not_key m q hk, List.lookup]
    · have hb : (q == k) = false := by simpa using hq
      simp [hq, List.lookup, hb]

/-- Assignment keeps the keys of a map unique. -/
theorem nodup_mapAssign {β : Type} (m : List (Bytes × β)) (k : Bytes) (v : β)
    (h : (m.map Prod.fst).Nodup) : ((mapAssign m k v).map Prod.fst).Nodup := by
  unfold mapAssign
  by_cases hany : m.any (fun e => e.1 == k) = true
  · rw [if_pos hany, map_fst_replace]
    exact h
  · rw [if_neg hany]
    have hk : k ∉ m.map Prod.fst := fun hm => hany ((any_key_iff m k).2 hm)
    rw [List.map_append, List.nodup_append]
    refine ⟨h, by simp, ?_⟩
    intro a ha hb
    simp only [List.map_cons, List.map_nil, List.mem_singleton] at hb
    exact hk (hb ▸ ha)

/-- A new key is added at the end of the map. -/
theorem mapAssign_new {β : Type} (m : List (Bytes × β)) (k : Bytes) (v : β)
    (h : m.lookup k = none) : mapAssign m k v = m ++ [(k, v)] := by
  unfold mapAssign
  have hk := not_key_of_lookup_none m k h
  have hany : ¬ m.any (fun e => e.1 == k) = true := fun ha => hk ((any_key_iff m k).1 ha)
  rw [if_neg hany]

/-- With unique keys, a map reads at a key the value it lists for it. -/
theorem mem_of_lookup_some {β : Type} (m : List (Bytes × β)) (k : Bytes) (v : β)
    (h : m.lookup k = some v) : (k, v) ∈ m := by
  obtain ⟨l1, l2, hm, _⟩ := List.lookup_eq_some_iff.1 h
  rw [hm]
  simp

/-! ## Lemmas on sequences of batch calls -/

/-- A call that returns normally keeps the keys unique, writes its entry at its key and
leaves the other keys as they were. -/
theorem BatchCall.run_ok (c : BatchCall) (b : UpdateBatch) (h : (c.run b).1 = Result.ok ()) :
    ((b.entries.map Prod.fst).Nodup → ((c.run b).2.entries.map Prod.fst).Nodup) ∧
      ∀ k, (c.run b).2.entries.lookup k
        = if k = c.key then some c.entry else b.entries.lookup k := by
  cases hb : b.KVs with
  | none =>
    cases c with
    | Put key value => cases value <;> simp [BatchCall.run, UpdateBatch.Put, hb] at h
    | Delete key => simp [BatchCall.run, UpdateBatch.Delete, hb] at h
  | some m =>
    have he : b.entries = m := by simp [UpdateBatch.entries, hb]
    cases c with
    | Put key value =>
      cases value with
      | none => simp [BatchCall.run, UpdateBatch.Put] at h
      | some v =>
        refine ⟨fun hnd => ?_, fun k => ?_⟩
        · rw [he] at hnd
          simpa [BatchCall.run, UpdateBatch.Put, hb, UpdateBatch.entries] using
            nodup_mapAssign m key (some v) hnd
        · rw [he]
          simpa [BatchCall.run, UpdateBatch.Put, hb, UpdateBatch.entries, BatchCall.key,
            BatchCall.entry] using lookup_mapAssign m key k (some v)
    | Delete key =>
      refine ⟨fun hnd => ?_, fun k => ?_⟩
      · rw [he] at hnd
        simpa [BatchCall.run, UpdateBatch.Delete, hb, UpdateBatch.entries] using
          nodup_mapAssign m key none hnd
      · rw [he]
        simpa [BatchCall.run, UpdateBatch.Delete, hb, UpdateBatch.entries, BatchCall.key,
          BatchCall.entry] using lookup_mapAssign m key k none

theorem lastWrite_cons (c : BatchCall) (cs : List BatchCall) (k : Bytes) :
    lastWrite (c :: cs) k = (lastWrite cs k).or (if c.key = k then some c.entry else none) := by
  simp only [lastWrite, List.reverse_cons, List.find?_append]
  cases cs.reverse.find? (fun c => c.key == k) with
  | some x => simp
  | none =>
    by_cases hk : c.key = k
    · simp [List.find?, hk]
    · have hb : (c.key == k) = false := by simpa using hk
      simp [List.find?, hk, hb]

theorem lastWrite_eq_none_iff (calls : List BatchCall) (k : Bytes) :
    lastWrite calls k = none ↔ ∀ c ∈ calls, c.key ≠ k := by
  simp [lastWrite, List.find?_eq_none]

/-- A sequence of calls that all return normally keeps the keys unique and leaves at each
key what the last call on it asked for, or what the batch held before. -/
theorem runCalls_ok (calls : List BatchCall) (b : UpdateBatch)
    (h : (runCalls calls b).1 = Result.ok ()) :
    ((b.entries.map Prod.fst).Nodup → ((runCalls calls b).2.entries.map Prod.fst).Nodup) ∧
      ∀ k, (runCalls calls b).2.entries.lookup k
        = (lastWrite calls k).or (b.entries.lookup k) := by
  induction calls generalizing b with
  | nil => simp [runCalls, lastWrite]
  | cons c cs ih =>
    cases hr : c.run b with
    | mk res b1 =>
      cases res with
      | panicked msg => simp [runCalls, hr] at h
      | ok u =>
        simp only [runCalls, hr] at h ⊢
        have hc := BatchCall.run_ok c b (by rw [hr])
        rw [hr] at hc
        obtain ⟨ih1, ih2⟩ := ih b1 h
        refine ⟨fun hnd => ih1 (hc.1 hnd), fun k => ?_⟩
        rw [ih2 k, hc.2 k, lastWrite_cons]
        cases lastWrite cs k with
        | some x => simp
        | none =>
          by_cases hk : c.key = k
          · simp [hk]
          · have hk2 : ¬ k = c.key := fun e => hk e.symm
            simp [hk, hk2]

/-! ## Lemmas on `retrieveAppKey` without a separator -/

theorem bytesIndex_none (p : Bytes) (h : (0 : Byte) ∉ p) : bytesIndex p [0] = none := by
  induction p with
  | nil => simp [bytesIndex, List.isPrefixOf]
  | cons x t ih =>
    simp only [List.mem_cons, not_or] at h
    have hx : ¬ x = 0 := fun e => h.1 e.symm
    simp [bytesIndex, List.isPrefixOf, hx, h.1, ih h.2]

theorem retrieveAppKey_none (p : Bytes) (h : (0 : Byte) ∉ p) : retrieveAppKey p = none := by
  simp [retrieveAppKey, SplitN, dbNameKeySep, genSplitLoop, bytesIndex_none p h]

/-- A byte string that holds 0x00 splits at its first 0x00. -/
theorem exists_first_sep (p : Bytes) (h : (0 : Byte) ∈ p) :
    ∃ a b, p = a ++ (0 : Byte) :: b ∧ (0 : Byte) ∉ a := by
  induction p with
  | nil => simp at h
  | cons x t ih =>
    by_cases hx : x = 0
    · exact ⟨[], t, by simp [hx], by simp⟩
    · have ht : (0 : Byte) ∈ t := by
        rcases List.mem_cons.1 h with h | h
        · exact absurd h.symm hx
        · exact h
      obtain ⟨a, b, hab, ha⟩ := ih ht
      refine ⟨x :: a, b, by simp [hab], ?_⟩
      simp only [List.mem_cons, not_or]
      exact ⟨fun e => hx e.symm, ha⟩

theorem indexOf_first_sep (a b : Bytes) (h : (0 : Byte) ∉ a) :
    (a ++ (0 : Byte) :: b).indexOf 0 = a.length := by
  induction a with
  | nil => simp [List.indexOf_cons]
  | cons x t ih =>
    simp only [List.mem_cons, not_or] at h
    have hx : (x == 0) = false := by simpa using fun e => h.1 (Eq.symm e)
    simp [List.indexOf_cons, hx, ih h.2]

/-! ## Lemmas on allocation -/

theorem getElem?_append_of_some {α : Type} (l l2 : List α) (i : Nat) (x : α)
    (h : l[i]? = some x) : (l ++ l2)[i]? = some x := by
  have hi : i < l.length := by
    by_contra hn
    rw [List.getElem?_eq_none (Nat.le_of_not_lt hn)] at h
    exact absurd h (by simp)
  rw [List.getElem?_append_left hi]
  exact h

theorem getElem?_alloc {α : Type} (l : List α) (x : α) : (l ++ [x])[l.length]? = some x := by
  simp

/-! ## Lemmas on reachable handle states -/

/-- A reachable handle that is opened has been initialised: `Open` sets `init` together
with `dbState`, and nothing clears it. -/
theorem DB.init_of_reachable_opened {σ : Type} (E : KVEngine σ) (dbInst : DB)
    (h : DB.Reachable E dbInst) (hop : dbInst.dbState = dbState.opened) :
    dbInst.init = true := by
  induction h with
  | ofCreateDB conf => simp [CreateDB] at hop
  | ofOpen d w _ ih =>
    unfold DB.Open at hop ⊢
    by_cases hd : d.dbState = dbState.opened
    · simp only [hd, if_true] at hop ⊢
      exact ih hd
    · simp [hd]
  | ofClose d w _ _ =>
    unfold DB.Close at hop
    by_cases hd : d.dbState = dbState.closed
    · simp [hd] at hop
    · simp [hd] at hop

/-! ## The claims -/

/-- C1, as stated, fails: for the namespace name `a\x00b`, which contains the separator,
and the raw key `k`, which does not, decoding the physical key gives `b\x00k`, not `k`. -/
theorem C1_counterexample :
    (0 : Byte) ∉ ([0x6b] : Bytes) ∧
      retrieveAppKey (constructLevelKey [0x61, 0x00, 0x62] [0x6b]) = some [0x62, 0x00, 0x6b] ∧
      retrieveAppKey (constructLevelKey [0x61, 0x00, 0x62] [0x6b]) ≠ some [0x6b] := by
  decide

/-- C1, amended: for every namespace name `n` that does not contain the byte 0x00 and every
raw key `k` that does not contain the byte 0x00, `retrieveAppKey (constructLevelKey n k)`
returns `k`. -/
theorem C1_roundtrip (n k : Bytes) (hn : (0 : Byte) ∉ n) (_hk : (0 : Byte) ∉ k) :
    retrieveAppKey (constructLevelKey n k) = some k :=
  retrieveAppKey_levelKey n k hn

theorem C1_roundtrip_witness :
    (0 : Byte) ∉ ([0x64, 0x62, 0x31] : Bytes) ∧ (0 : Byte) ∉ ([0x6b, 0x65, 0x79] : Bytes) ∧
      retrieveAppKey (constructLevelKey [0x64, 0x62, 0x31] [0x6b, 0x65, 0x79]) =
        some [0x6b, 0x65, 0x79] :=
  ⟨by decide, by decide,
    C1_roundtrip [0x64, 0x62, 0x31] [0x6b, 0x65, 0x79] (by decide) (by decide)⟩

/-- C2: `constructLevelKey n k` is `n ++ [0x00] ++ k`, and physical keys are collision-free:
for namespace names `n1`, `n2` without the byte 0x00 and any raw keys `k1`, `k2`, equal
physical keys force `n1 = n2` and `k1 = k2`. -/
theorem C2_collision_free (n1 n2 k1 k2 : Bytes) (h1 : (0 : Byte) ∉ n1) (h2 : (0 : Byte) ∉ n2)
    (h : constructLevelKey n1 k1 = constructLevelKey n2 k2) :
    constructLevelKey n1 k1 = n1 ++ [0x00] ++ k1 ∧ n1 = n2 ∧ k1 = k2 :=
  ⟨rfl, levelKey_inj n1 n2 k1 k2 h1 h2 h⟩

theorem C2_collision_free_witness :
    (0 : Byte) ∉ ([0x64, 0x62] : Bytes) ∧
      constructLevelKey [0x64, 0x62] [0x6b] = constructLevelKey [0x64, 0x62] [0x6b] ∧
      constructLevelKey [0x64, 0x62] [0x6b] = [0x64, 0x62] ++ [0x00] ++ [0x6b] ∧
      ([0x64, 0x62] : Bytes) = [0x64, 0x62] ∧ ([0x6b] : Bytes) = [0x6b] :=
  ⟨by decide, rfl,
    C2_collision_free [0x64, 0x62] [0x64, 0x62] [0x6b] [0x6b] (by decide) (by decide) rfl⟩

/-- C3: namespace isolation of point operations on the map engine.  For handles with
different names on one Opened `DB`, `Put(k, v1)` through the first and then `Put(k, v2)`
through the second both return no error, and then `Get(k)` through the first returns `v1`
with no error and `Get(k)` through the second returns `v2` with no error. -/
theorem C3_point_isolation (h1 h2 : DBHandle) (dbInst : DB) (w : World) (k v1 v2 : Bytes)
    (hne : h1.dbName ≠ h2.dbName) (hop : dbInst.Opened) :
    ∃ w1 w2 w3 w4,
      DBHandle.Put mapEngine h1 dbInst k v1 w = Result.ok (none, w1) ∧
      DBHandle.Put mapEngine h2 dbInst k v2 w1 = Result.ok (none, w2) ∧
      DBHandle.Get mapEngine h1 dbInst k w2 = Result.ok ((some v1, none), w3) ∧
      DBHandle.Get mapEngine h2 dbInst k w3 = Result.ok ((some v2, none), w4) := by
  obtain ⟨c, hc⟩ := DB.Opened_db hop
  have hk : constructLevelKey h1.dbName k ≠ constructLevelKey h2.dbName k :=
    fun e => hne (levelKey_inj_name _ _ _ e)
  exact ⟨_, _, _, _, DB.Put_mapEngine dbInst c _ v1 w hop hc,
    DB.Put_mapEngine dbInst c _ v2 _ hop hc,
    DBHandle.Get_of_lookup h1 dbInst c k _ _ hop hc
      (by simp only [lookup_storePut_ne _ _ _ _ hk, lookup_storePut_self]),
    DBHandle.Get_of_lookup h2 dbInst c k _ _ hop hc (by simp only [lookup_storePut_self])⟩

theorem C3_point_isolation_witness :
    ([0x64, 0x31] : Bytes) ≠ [0x64, 0x32] ∧ sampleDB.Opened ∧
      ∃ w1 w2 w3 w4,
        DBHandle.Put mapEngine ⟨[0x64, 0x31], 0⟩ sampleDB [0x6b] [0x01] sampleWorld
          = Result.ok (none, w1) ∧
        DBHandle.Put mapEngine ⟨[0x64, 0x32], 0⟩ sampleDB [0x6b] [0x02] w1
          = Result.ok (none, w2) ∧
        DBHandle.Get mapEngine ⟨[0x64, 0x31], 0⟩ sampleDB [0x6b] w2
          = Result.ok ((some [0x01], none), w3) ∧
        DBHandle.Get mapEngine ⟨[0x64, 0x32], 0⟩ sampleDB [0x6b] w3
          = Result.ok ((some [0x02], none), w4) :=
  ⟨by decide, by decide,
    C3_point_isolation ⟨[0x64, 0x31], 0⟩ ⟨[0x64, 0x32], 0⟩ sampleDB sampleWorld
      [0x6b] [0x01] [0x02] (by decide) (by decide)⟩

/-- C4: namespace isolation of range scans.  For namespace names `n1 ≠ n2` without the byte
0x00, any start key (nil or not) and any raw key `k`, the physical key
`constructLevelKey n2 k` is outside the range `[sKey, eKey)` that
`DBHandle(n1).GetIterator(start, nil)` passes to the engine; so on the map engine the
cursor that call returns holds no entry with that physical key. -/
theorem C4_scan_isolation (h1 : DBHandle) (n2 : Bytes) (startKey : Option Bytes) (k : Bytes)
    (hne : h1.dbName ≠ n2) (hz1 : (0 : Byte) ∉ h1.dbName) (hz2 : (0 : Byte) ∉ n2) :
    inRange (h1.iterBounds startKey none).1 (h1.iterBounds startKey none).2
        (constructLevelKey n2 k) = false ∧
      ∀ (dbInst : DB) (w w1 : World) (itr : Iterator),
        DBHandle.GetIterator mapEngine h1 dbInst startKey none w = Result.ok (itr, w1) →
        ∀ e ∈ itr.SeekToFirst.cursor.rest, e.1 ≠ constructLevelKey n2 k := by
  have key : ∀ p, inRange (h1.iterBounds startKey none).1 (h1.iterBounds startKey none).2 p
      = true → p ≠ constructLevelKey n2 k := by
    intro p hp e
    rw [iterBounds_nil_end, iterBounds_start] at hp
    simp only [inRange, Bool.and_eq_true, Bool.or_eq_true] at hp
    have hlt : bytesLt p (h1.dbName ++ [lastKeyIndicator]) = true := by
      rcases hp.2 with h | h
      · simp at h
      · exact h
    obtain ⟨r, hr⟩ := levelKey_of_inRange _ _ _ hp.1 hlt
    exact hne (levelKey_inj _ _ _ _ hz1 hz2 (hr.symm.trans e)).1
  refine ⟨?_, ?_⟩
  · cases hin : inRange (h1.iterBounds startKey none).1 (h1.iterBounds startKey none).2
        (constructLevelKey n2 k) with
    | false => rfl
    | true => exact absurd rfl (key _ hin)
  · intro dbInst w w1 itr hget e he
    unfold DBHandle.GetIterator DB.GetIterator at hget
    by_cases hcl : dbInst.dbState = dbState.closed
    · simp [hcl] at hget
    · cases hdb : dbInst.db with
      | none => simp [hcl, hdb] at hget
      | some c =>
        simp only [hcl, hdb, if_false, Result.ok.injEq, Prod.mk.injEq] at hget
        obtain ⟨hitr, _⟩ := hget
        subst hitr
        simp only [Iterator.SeekToFirst, UstoreIterator.SeekToFirst, UstoreIterator.SetRange,
          List.mem_filter] at he
        exact key _ he.2

theorem C4_scan_isolation_witness :
    ([0x64, 0x31] : Bytes) ≠ [0x64, 0x32] ∧ (0 : Byte) ∉ ([0x64, 0x31] : Bytes) ∧
      (0 : Byte) ∉ ([0x64, 0x32] : Bytes) ∧
      inRange ((⟨[0x64, 0x31], 0⟩ : DBHandle).iterBounds (some [0x61]) none).1
          ((⟨[0x64, 0x31], 0⟩ : DBHandle).iterBounds (some [0x61]) none).2
          (constructLevelKey [0x64, 0x32] [0x61]) = false ∧
      ∀ (dbInst : DB) (w w1 : World) (itr : Iterator),
        DBHandle.GetIterator mapEngine ⟨[0x64, 0x31], 0⟩ dbInst (some [0x61]) none w
          = Result.ok (itr, w1) →
        ∀ e ∈ itr.SeekToFirst.cursor.rest, e.1 ≠ constructLevelKey [0x64, 0x32] [0x61] :=
  ⟨by decide, by decide, by decide,
    C4_scan_isolation ⟨[0x64, 0x31], 0⟩ [0x64, 0x32] (some [0x61]) [0x61]
      (by decide) (by decide) (by decide)⟩

/-- C5: for every namespace name `n`, the end bound `DBHandle(n).GetIterator` computes for a
nil `endKey` is `n ++ [0x01]`, which is `constructLevelKey n nil` with its last byte
replaced by 0x01, and every physical key `constructLevelKey n k` is strictly below it in
byte-wise lexicographic order. -/
theorem C5_end_bound (h : DBHandle) (startKey : Option Bytes) (k : Bytes) :
    (h.iterBounds startKey none).2 = h.dbName ++ [0x01] ∧
      (h.iterBounds startKey none).2 =
        (constructLevelKey h.dbName (bytesOf none)).set
          ((constructLevelKey h.dbName (bytesOf none)).length - 1) 0x01 ∧
      bytesLt (constructLevelKey h.dbName k) (h.iterBounds startKey none).2 = true := by
  refine ⟨iterBounds_nil_end h startKey, ?_, ?_⟩
  · simp [DBHandle.iterBounds, lastKeyIndicator]
  · rw [iterBounds_nil_end]
    exact levelKey_lt_sentinel h.dbName k

/-- C6: iterator bounds on the map engine.  For a namespace name without the byte 0x00, an
Opened handle, an ordered store and any `startKey` and `endKey` (each possibly nil),
`DBHandle.GetIterator` returns a cursor, and the scan `SeekToFirst / Valid / Key / Value /
Next` ends, once given more rounds than the store has entries, with a list of `(Key(),
Value())` results that is strictly ascending by key (so each key comes once) and holds
`(k, v)` exactly when the store holds `v` under the physical key of `k` in this namespace,
`startKey ≤ k` unless `startKey` is nil, and `k < endKey` unless `endKey` is nil. -/
theorem C6_iterator_bounds (h : DBHandle) (dbInst : DB) (w : World)
    (startKey endKey : Option Bytes) (hz : (0 : Byte) ∉ h.dbName) (hop : dbInst.Opened)
    (hs : StoreSorted w.store) :
    ∃ itr w1 res,
      DBHandle.GetIterator mapEngine h dbInst startKey endKey w = Result.ok (itr, w1) ∧
      (∀ fuel, w.store.length < fuel → scanAll fuel itr = some res) ∧
      res.Pairwise (fun a b => bytesLt a.1 b.1 = true) ∧
      (res.map Prod.fst).Nodup ∧
      ∀ k v, (k, v) ∈ res ↔
        (w.store.lookup (constructLevelKey h.dbName k) = some v ∧
          (∀ s, startKey = some s → bytesLe s k = true) ∧
          (∀ e, endKey = some e → bytesLt k e = true)) := by
  obtain ⟨c, hc⟩ := DB.Opened_db hop
  have hform : ∀ e ∈ w.store.filter (fun e =>
      inRange (h.iterBounds startKey endKey).1 (h.iterBounds startKey endKey).2 e.1),
      ∃ r, e.1 = constructLevelKey h.dbName r := by
    intro e he
    exact levelKey_of_inRange_iterBounds h startKey endKey e.1 (List.mem_filter.1 he).2
  have hsorted : ((w.store.filter (fun e =>
      inRange (h.iterBounds startKey endKey).1 (h.iterBounds startKey endKey).2 e.1)).map
      fun e => (e.1.drop (h.dbName.length + 1), e.2)).Pairwise
      (fun a b => bytesLt a.1 b.1 = true) := by
    rw [List.pairwise_map]
    have hp : (w.store.filter (fun e =>
        inRange (h.iterBounds startKey endKey).1 (h.iterBounds startKey endKey).2 e.1)).Pairwise
        (fun a b => bytesLt a.1 b.1 = true) := List.Pairwise.filter _ hs
    refine hp.imp_of_mem ?_
    intro a b ha hb hab
    obtain ⟨ra, hra⟩ := hform a ha
    obtain ⟨rb, hrb⟩ := hform b hb
    rw [hra, hrb] at hab ⊢
    simp only [constructLevelKey, bytesLt_append_left] at hab
    simpa [constructLevelKey, dbNameKeySep, List.drop_append] using hab
  refine ⟨_, _, _, DBHandle.GetIterator_cursor h dbInst c startKey endKey w hop hc,
    ?_, hsorted, ?_, ?_⟩
  · intro fuel hf
    simp only [scanAll, Iterator.SeekToFirst, UstoreIterator.SeekToFirst]
    exact scanLoop_levelKeys h.dbName hz _ _ _ _ hform fuel
      (lt_of_le_of_lt (List.length_filter_le _ _) hf)
  · rw [List.pairwise_map] at hsorted
    rw [List.Nodup, List.pairwise_map, List.pairwise_map]
    refine hsorted.imp ?_
    intro a b hab e
    rw [e, bytesLt_irrefl] at hab
    exact absurd hab (by simp)
  · intro k v
    simp only [List.mem_map, List.mem_filter, Prod.mk.injEq]
    constructor
    · rintro ⟨e, ⟨hmem, hin⟩, hk, hv⟩
      obtain ⟨r, hr⟩ := levelKey_of_inRange_iterBounds h startKey endKey e.1 hin
      have hrk : r = k := by
        rw [hr] at hk
        simpa [constructLevelKey, dbNameKeySep, List.drop_append] using hk
      subst hrk
      have he : e = (constructLevelKey h.dbName r, v) := Prod.ext hr hv
      rw [he] at hmem
      rw [hr] at hin
      exact ⟨(lookup_eq_some_iff_mem _ hs _ _).2 hmem,
        (inRange_iterBounds h startKey endKey r).1 hin⟩
    · rintro ⟨hl, hb⟩
      refine ⟨(constructLevelKey h.dbName k, v),
        ⟨(lookup_eq_some_iff_mem _ hs _ _).1 hl,
          (inRange_iterBounds h startKey endKey k).2 hb⟩, ?_, rfl⟩
      simp [constructLevelKey, dbNameKeySep, List.drop_append]

theorem C6_iterator_bounds_witness :
    (0 : Byte) ∉ ([0x64, 0x31] : Bytes) ∧ sampleDB.Opened ∧ StoreSorted sampleWorld.store ∧
      ∃ itr w1 res,
        DBHandle.GetIterator mapEngine ⟨[0x64, 0x31], 0⟩ sampleDB (some [0x62]) none sampleWorld
          = Result.ok (itr, w1) ∧
        (∀ fuel, sampleWorld.store.length < fuel → scanAll fuel itr = some res) ∧
        res.Pairwise (fun a b => bytesLt a.1 b.1 = true) ∧
        (res.map Prod.fst).Nodup ∧
        ∀ k v, (k, v) ∈ res ↔
          (sampleWorld.store.lookup (constructLevelKey [0x64, 0x31] k) = some v ∧
            (∀ s, some [0x62] = some s → bytesLe s k = true) ∧
            (∀ e, (none : Option Bytes) = some e → bytesLt k e = true)) :=
  ⟨by decide, by decide, by decide,
    C6_iterator_bounds ⟨[0x64, 0x31], 0⟩ sampleDB sampleWorld (some [0x62]) none
      (by decide) (by decide) (by decide)⟩

/-- C7: atomic batch on the map engine.  On an Opened handle, `DBHandle.WriteBatch` returns
no error and adds exactly one call to the engine log: one `Write` whose batch holds one
operation per entry, in enumeration order (a put of the physical key for a non-nil value,
a delete of it for a nil value).  Afterwards `Get(k)` returns `v` with no error for every
entry `(k, v)` with `v` non-nil, an absent value with no error for every entry with a nil
value, and what it returned before for every raw key not in the batch; and every other
enumeration order of the same entries leaves every `Get` with the same result. -/
theorem C7_atomic_batch (h : DBHandle) (dbInst : DB) (batch : UpdateBatch) (w : World)
    (hop : dbInst.Opened) (hwf : batch.WF) :
    ∃ c w1, dbInst.db = some c ∧
      DBHandle.WriteBatch mapEngine h dbInst batch w = Result.ok (none, w1) ∧
      w1.calls = w.calls ++ [EngineCall.Write c (batch.entries.map (entryOp h.dbName))] ∧
      (∀ k v, (k, some v) ∈ batch.entries →
        ∃ w2, DBHandle.Get mapEngine h dbInst k w1 = Result.ok ((some v, none), w2)) ∧
      (∀ k, (k, none) ∈ batch.entries →
        ∃ w2, DBHandle.Get mapEngine h dbInst k w1 = Result.ok ((none, none), w2)) ∧
      (∀ k, k ∉ batch.entries.map Prod.fst →
        ∃ r w2 w3, DBHandle.Get mapEngine h dbInst k w = Result.ok ((r, none), w2) ∧
          DBHandle.Get mapEngine h dbInst k w1 = Result.ok ((r, none), w3)) ∧
      (∀ batch2 : UpdateBatch, batch2.entries.Perm batch.entries →
        ∃ v1, DBHandle.WriteBatch mapEngine h dbInst batch2 w = Result.ok (none, v1) ∧
          ∀ k, ∃ r w2 w3, DBHandle.Get mapEngine h dbInst k w1 = Result.ok ((r, none), w2) ∧
            DBHandle.Get mapEngine h dbInst k v1 = Result.ok ((r, none), w3)) := by
  obtain ⟨c, hc⟩ := DB.Opened_db hop
  refine ⟨c, _, hc, DBHandle.WriteBatch_store h dbInst c batch w hop hc, rfl, ?_, ?_, ?_, ?_⟩
  · intro k v hmem
    exact ⟨_, DBHandle.Get_of_lookup h dbInst c k _ _ hop hc
      (batch_lookup_mem h.dbName batch.entries w.store k (some v) hwf hmem)⟩
  · intro k hmem
    exact ⟨_, DBHandle.Get_of_lookup h dbInst c k _ _ hop hc
      (batch_lookup_mem h.dbName batch.entries w.store k none hwf hmem)⟩
  · intro k hk
    exact ⟨_, _, _, DBHandle.Get_of_lookup h dbInst c k w _ hop hc rfl,
      DBHandle.Get_of_lookup h dbInst c k _ _ hop hc
        (batch_lookup_not_mem h.dbName batch.entries w.store k hk)⟩
  · intro batch2 hperm
    have hwf2 : (batch2.entries.map Prod.fst).Nodup := (hperm.map Prod.fst).nodup_iff.2 hwf
    refine ⟨_, DBHandle.WriteBatch_store h dbInst c batch2 w hop hc, ?_⟩
    intro k
    by_cases hk : k ∈ batch.entries.map Prod.fst
    · obtain ⟨e, he, hek⟩ := List.mem_map.1 hk
      obtain ⟨k0, v⟩ := e
      simp only at hek
      subst hek
      exact ⟨v, _, _, DBHandle.Get_of_lookup h dbInst c k0 _ _ hop hc
          (batch_lookup_mem h.dbName batch.entries w.store k0 v hwf he),
        DBHandle.Get_of_lookup h dbInst c k0 _ _ hop hc
          (batch_lookup_mem h.dbName batch2.entries w.store k0 v hwf2 (hperm.mem_iff.2 he))⟩
    · have hk2 : k ∉ batch2.entries.map Prod.fst := fun hm => hk ((hperm.map Prod.fst).mem_iff.1 hm)
      exact ⟨_, _, _, DBHandle.Get_of_lookup h dbInst c k _ _ hop hc
          (batch_lookup_not_mem h.dbName batch.entries w.store k hk),
        DBHandle.Get_of_lookup h dbInst c k _ _ hop hc
          (batch_lookup_not_mem h.dbName batch2.entries w.store k hk2)⟩

theorem C7_atomic_batch_witness :
    sampleDB.Opened ∧ sampleBatch.WF ∧
      ∃ c w1, sampleDB.db = some c ∧
        DBHandle.WriteBatch mapEngine ⟨[0x64, 0x31], 0⟩ sampleDB sampleBatch sampleWorld
          = Result.ok (none, w1) ∧
        w1.calls = sampleWorld.calls ++
          [EngineCall.Write c (sampleBatch.entries.map (entryOp [0x64, 0x31]))] ∧
        (∀ k v, (k, some v) ∈ sampleBatch.entries →
          ∃ w2, DBHandle.Get mapEngine ⟨[0x64, 0x31], 0⟩ sampleDB k w1
            = Result.ok ((some v, none), w2)) ∧
        (∀ k, (k, none) ∈ sampleBatch.entries →
          ∃ w2, DBHandle.Get mapEngine ⟨[0x64, 0x31], 0⟩ sampleDB k w1
            = Result.ok ((none, none), w2)) ∧
        (∀ k, k ∉ sampleBatch.entries.map Prod.fst →
          ∃ r w2 w3, DBHandle.Get mapEngine ⟨[0x64, 0x31], 0⟩ sampleDB k sampleWorld
              = Result.ok ((r, none), w2) ∧
            DBHandle.Get mapEngine ⟨[0x64, 0x31], 0⟩ sampleDB k w1
              = Result.ok ((r, none), w3)) ∧
        (∀ batch2 : UpdateBatch, batch2.entries.Perm sampleBatch.entries →
          ∃ v1, DBHandle.WriteBatch mapEngine ⟨[0x64, 0x31], 0⟩ sampleDB batch2 sampleWorld
              = Result.ok (none, v1) ∧
            ∀ k, ∃ r w2 w3, DBHandle.Get mapEngine ⟨[0x64, 0x31], 0⟩ sampleDB k w1
                = Result.ok ((r, none), w2) ∧
              DBHandle.Get mapEngine ⟨[0x64, 0x31], 0⟩ sampleDB k v1
                = Result.ok ((r, none), w3)) :=
  ⟨by decide, by decide,
    C7_atomic_batch ⟨[0x64, 0x31], 0⟩ sampleDB sampleBatch sampleWorld (by decide) (by decide)⟩

/-- C8: `Open` and `Close` are idempotent on the handle state together with the engine
state, for every engine; on the map engine `Open` leaves the handle opened, makes one
`NewKVDB` call exactly when the handle was closed and never destroys a connection, and
`Close` leaves the handle closed, makes one `DeleteKVDB` call exactly when the handle was
opened and never creates a connection. -/
theorem C8_open_close_idempotent {σ : Type} (E : KVEngine σ) (s : DB) (w : σ) (v : World) :
    DB.Open E (DB.Open E s w).1 (DB.Open E s w).2 = DB.Open E s w ∧
      DB.Close E (DB.Close E s w).1 (DB.Close E s w).2 = DB.Close E s w ∧
      (DB.Open mapEngine s v).1.dbState = dbState.opened ∧
      (DB.Open mapEngine s v).2.created
        = v.created + (if s.dbState = dbState.closed then 1 else 0) ∧
      (DB.Open mapEngine s v).2.destroyed = v.destroyed ∧
      (DB.Open mapEngine s v).2.calls
        = v.calls ++ (if s.dbState = dbState.closed then [EngineCall.NewKVDB] else []) ∧
      (DB.Close mapEngine s v).1.dbState = dbState.closed ∧
      (DB.Close mapEngine s v).2.destroyed
        = v.destroyed + (if s.dbState = dbState.opened then 1 else 0) ∧
      (DB.Close mapEngine s v).2.created = v.created ∧
      (DB.Close mapEngine s v).2.calls
        = v.calls ++ (if s.dbState = dbState.opened then [EngineCall.DeleteKVDB s.db] else []) := by
  cases hs : s.dbState <;> simp [DB.Open, DB.Close, hs, mapEngine]

/-- C9: use before open.  For every engine, configuration, key and value, `Get` and `Put`
on the handle `CreateDB` returns, with no `Open` in between, panic with
"DB is not opened yet"; they return neither a value nor an error. -/
theorem C9_use_before_open {σ : Type} (E : KVEngine σ) (conf : Conf) (key value : Bytes)
    (w : σ) :
    DB.Get E (CreateDB conf) key w = Result.panicked "DB is not opened yet" ∧
      DB.Put E (CreateDB conf) key value w = Result.panicked "DB is not opened yet" := by
  simp [DB.Get, DB.Put, CreateDB]

/-- C10: operations after close.  On a handle that has been opened (`init` is set) and is
closed, for every engine, key and value: `Get` returns a nil value with a non-nil error,
`Put` and `Delete` return a non-nil error, none of them panics, and each leaves the engine
state as it was, so none makes an engine call (the handle state is not written by any of
the three). -/
theorem C10_after_close {σ : Type} (E : KVEngine σ) (dbInst : DB) (key value : Bytes) (w : σ)
    (hinit : dbInst.init = true) (hcl : dbInst.dbState = dbState.closed) :
    DB.Get E dbInst key w = Result.ok ((none, some ""), w) ∧
      DB.Put E dbInst key value w = Result.ok (some "", w) ∧
      DB.Delete E dbInst key w = Result.ok (some "", w) := by
  simp [DB.Get, DB.Put, DB.Delete, hinit, hcl]

theorem C10_after_close_witness :
    sampleClosedDB.init = true ∧ sampleClosedDB.dbState = dbState.closed ∧
      DB.Get mapEngine sampleClosedDB [0x6b] sampleWorld
        = Result.ok ((none, some ""), sampleWorld) ∧
      DB.Put mapEngine sampleClosedDB [0x6b] [0x76] sampleWorld
        = Result.ok (some "", sampleWorld) ∧
      DB.Delete mapEngine sampleClosedDB [0x6b] sampleWorld
        = Result.ok (some "", sampleWorld) :=
  ⟨rfl, rfl, C10_after_close mapEngine sampleClosedDB [0x6b] [0x76] sampleWorld rfl rfl⟩

/-- C11: `WriteBatch` while Closed is a silent no-op.  For every engine, every handle whose
state is closed (opened before or not) and every engine batch, `DB.WriteBatch` returns the
nil error and the engine state it was given, so it makes no engine call and leaves the
stored data as it was; the handle state is not written. -/
theorem C11_writeBatch_closed {σ : Type} (E : KVEngine σ) (dbInst : DB)
    (batch : Ustorehelper.WriteBatch) (w : σ) (hcl : dbInst.dbState = dbState.closed) :
    DB.WriteBatch E dbInst batch w = Result.ok (none, w) := by
  simp [DB.WriteBatch, hcl]

theorem C11_writeBatch_closed_witness :
    sampleClosedDB.dbState = dbState.closed ∧
      DB.WriteBatch mapEngine sampleClosedDB [BatchOp.Put [0x6b] [0x76], BatchOp.Delete [0x61]]
        sampleWorld = Result.ok (none, sampleWorld) :=
  ⟨rfl, C11_writeBatch_closed mapEngine sampleClosedDB
    [BatchOp.Put [0x6b] [0x76], BatchOp.Delete [0x61]] sampleWorld rfl⟩

/-- C12, as stated, fails: on the handle left by `CreateDB`, `Open`, `Close`, which has been
opened once and is closed, `GetIterator` panics with "DB is not opened yet". -/
theorem C12_counterexample :
    sampleClosedDB.init = true ∧ sampleClosedDB.dbState = dbState.closed ∧
      DB.GetIterator mapEngine sampleClosedDB none none sampleWorld
        = Result.panicked "DB is not opened yet" := by
  decide

/-- C12, amended: on a handle that has been opened (`init` is set) and is closed, for every
engine, `Get`, `Put` and `Delete` return a non-nil error and `WriteBatch` returns the nil
error, none of them panics and none makes an engine call; `GetIterator` panics with
"DB is not opened yet", as it does on every closed handle.  For `Get`, `Put` and `Delete`
this differs from the never-opened handle of `CreateDB`, on which they panic; `WriteBatch`
returns nil and `GetIterator` panics on that handle too. -/
theorem C12_closed_operations {σ : Type} (E : KVEngine σ) (dbInst : DB) (conf : Conf)
    (key value : Bytes) (batch : Ustorehelper.WriteBatch) (startKey endKey : Option Bytes)
    (w : σ) (hinit : dbInst.init = true) (hcl : dbInst.dbState = dbState.closed) :
    DB.Get E dbInst key w = Result.ok ((none, some ""), w) ∧
      DB.Put E dbInst key value w = Result.ok (some "", w) ∧
      DB.Delete E dbInst key w = Result.ok (some "", w) ∧
      DB.WriteBatch E dbInst batch w = Result.ok (none, w) ∧
      DB.GetIterator E dbInst startKey endKey w = Result.panicked "DB is not opened yet" ∧
      DB.Get E (CreateDB conf) key w = Result.panicked "DB is not opened yet" ∧
      DB.Put E (CreateDB conf) key value w = Result.panicked "DB is not opened yet" ∧
      DB.Delete E (CreateDB conf) key w = Result.panicked "DB is not opened yet" ∧
      DB.WriteBatch E (CreateDB conf) batch w = Result.ok (none, w) ∧
      DB.GetIterator E (CreateDB conf) startKey endKey w
        = Result.panicked "DB is not opened yet" := by
  simp [DB.Get, DB.Put, DB.Delete, DB.WriteBatch, DB.GetIterator, CreateDB, hinit, hcl]

theorem C12_closed_operations_witness :
    sampleClosedDB.init = true ∧ sampleClosedDB.dbState = dbState.closed ∧
      DB.Get mapEngine sampleClosedDB [0x6b] sampleWorld
        = Result.ok ((none, some ""), sampleWorld) ∧
      DB.Put mapEngine sampleClosedDB [0x6b] [0x76] sampleWorld
        = Result.ok (some "", sampleWorld) ∧
      DB.Delete mapEngine sampleClosedDB [0x6b] sampleWorld
        = Result.ok (some "", sampleWorld) ∧
      DB.WriteBatch mapEngine sampleClosedDB [BatchOp.Delete [0x61]] sampleWorld
        = Result.ok (none, sampleWorld) ∧
      DB.GetIterator mapEngine sampleClosedDB none none sampleWorld
        = Result.panicked "DB is not opened yet" ∧
      DB.Get mapEngine (CreateDB Conf.mk) [0x6b] sampleWorld
        = Result.panicked "DB is not opened yet" ∧
      DB.Put mapEngine (CreateDB Conf.mk) [0x6b] [0x76] sampleWorld
        = Result.panicked "DB is not opened yet" ∧
      DB.Delete mapEngine (CreateDB Conf.mk) [0x6b] sampleWorld
        = Result.panicked "DB is not opened yet" ∧
      DB.WriteBatch mapEngine (CreateDB Conf.mk) [BatchOp.Delete [0x61]] sampleWorld
        = Result.ok (none, sampleWorld) ∧
      DB.GetIterator mapEngine (CreateDB Conf.mk) none none sampleWorld
        = Result.panicked "DB is not opened yet" :=
  ⟨rfl, rfl, C12_closed_operations mapEngine sampleClosedDB Conf.mk [0x6b] [0x76]
    [BatchOp.Delete [0x61]] none none sampleWorld rfl rfl⟩

/-- C13: the status mapping of `Get` on an Opened handle, for every engine and key, in the
guarded `DB` and in the unguarded one of the core package alike: with `(st, value)` the
answer of the engine, `Get` returns `(nil, nil)` if `st.IsNotFound()`, otherwise
`(nil, errors.New(st.ToString()))` if not `st.Ok()`, otherwise `(value, nil)`; the engine
state is the one the engine call leaves.  Not-found is never an error. -/
theorem C13_get_status {σ : Type} (E : KVEngine σ) (dbInst : DB) (coreInst : Core.DB)
    (c : KVDB) (key : Bytes) (w : σ) (hop : dbInst.Opened) (hc : dbInst.db = some c)
    (hcc : coreInst.db = some c) :
    DB.Get E dbInst key w =
        Result.ok
          (if (E.Get c key w).1.1.IsNotFound = true then (none, none)
            else if (E.Get c key w).1.1.Ok = false then
              (none, some (E.Get c key w).1.1.ToString)
            else (some (E.Get c key w).1.2, none),
           (E.Get c key w).2) ∧
      Core.DB.Get E coreInst key w = DB.Get E dbInst key w := by
  obtain ⟨h1, h2, _⟩ := hop
  cases hnf : (E.Get c key w).1.1.IsNotFound <;> cases hok : (E.Get c key w).1.1.Ok <;>
    simp [DB.Get, Core.DB.Get, h1, h2, hc, hcc, hnf, hok]

theorem C13_get_status_witness :
    sampleDB.Opened ∧ sampleDB.db = some 0 ∧ sampleCoreDB.db = some 0 ∧
      DB.Get failingEngine sampleDB [0x6b] () =
        Result.ok
          (if (failingEngine.Get 0 [0x6b] ()).1.1.IsNotFound = true then (none, none)
            else if (failingEngine.Get 0 [0x6b] ()).1.1.Ok = false then
              (none, some (failingEngine.Get 0 [0x6b] ()).1.1.ToString)
            else (some (failingEngine.Get 0 [0x6b] ()).1.2, none),
           (failingEngine.Get 0 [0x6b] ()).2) ∧
      Core.DB.Get failingEngine sampleCoreDB [0x6b] ()
        = DB.Get failingEngine sampleDB [0x6b] () :=
  ⟨by decide, rfl, rfl,
    C13_get_status failingEngine sampleDB sampleCoreDB 0 [0x6b] () (by decide) rfl rfl⟩

/-- C14: point semantics of `DB` on the map engine, handle Opened.  `Put(k, v)` returns no
error and then `Get(k)` returns `v` with no error; `Delete(k)` returns no error and then
`Get(k)` returns an absent value with no error; and for a key `q` other than `k`, `Get(q)`
returns the same result before the call, after the `Put` and after the `Delete`. -/
theorem C14_point_semantics (dbInst : DB) (w : World) (k v q : Bytes) (hop : dbInst.Opened)
    (hq : q ≠ k) :
    ∃ w1 w2 w3 w4 r w5 w6 w7,
      DB.Put mapEngine dbInst k v w = Result.ok (none, w1) ∧
      DB.Get mapEngine dbInst k w1 = Result.ok ((some v, none), w2) ∧
      DB.Delete mapEngine dbInst k w = Result.ok (none, w3) ∧
      DB.Get mapEngine dbInst k w3 = Result.ok ((none, none), w4) ∧
      DB.Get mapEngine dbInst q w = Result.ok ((r, none), w5) ∧
      DB.Get mapEngine dbInst q w1 = Result.ok ((r, none), w6) ∧
      DB.Get mapEngine dbInst q w3 = Result.ok ((r, none), w7) := by
  obtain ⟨c, hc⟩ := DB.Opened_db hop
  exact ⟨_, _, _, _, _, _, _, _, DB.Put_mapEngine dbInst c k v w hop hc,
    DB.Get_of_store dbInst c k _ _ hop hc (lookup_storePut_self k v w.store),
    DB.Delete_mapEngine dbInst c k w hop hc,
    DB.Get_of_store dbInst c k _ _ hop hc (lookup_storeDelete_self k w.store),
    DB.Get_of_store dbInst c q w _ hop hc rfl,
    DB.Get_of_store dbInst c q _ _ hop hc (lookup_storePut_ne k q v w.store hq),
    DB.Get_of_store dbInst c q _ _ hop hc (lookup_storeDelete_ne k q w.store hq)⟩

theorem C14_point_semantics_witness :
    sampleDB.Opened ∧ ([0x64, 0x31, 0x00, 0x62] : Bytes) ≠ [0x64, 0x31, 0x00, 0x61] ∧
      ∃ w1 w2 w3 w4 r w5 w6 w7,
        DB.Put mapEngine sampleDB [0x64, 0x31, 0x00, 0x61] [0x07] sampleWorld
          = Result.ok (none, w1) ∧
        DB.Get mapEngine sampleDB [0x64, 0x31, 0x00, 0x61] w1
          = Result.ok ((some [0x07], none), w2) ∧
        DB.Delete mapEngine sampleDB [0x64, 0x31, 0x00, 0x61] sampleWorld
          = Result.ok (none, w3) ∧
        DB.Get mapEngine sampleDB [0x64, 0x31, 0x00, 0x61] w3 = Result.ok ((none, none), w4) ∧
        DB.Get mapEngine sampleDB [0x64, 0x31, 0x00, 0x62] sampleWorld
          = Result.ok ((r, none), w5) ∧
        DB.Get mapEngine sampleDB [0x64, 0x31, 0x00, 0x62] w1 = Result.ok ((r, none), w6) ∧
        DB.Get mapEngine sampleDB [0x64, 0x31, 0x00, 0x62] w3 = Result.ok ((r, none), w7) :=
  ⟨by decide, by decide,
    C14_point_semantics sampleDB sampleWorld [0x64, 0x31, 0x00, 0x61] [0x07]
      [0x64, 0x31, 0x00, 0x62] (by decide) (by decide)⟩

/-- C15, as stated, fails: on the zero-value batch `UpdateBatch{}`, whose `KVs` map is nil,
`Put(k, v)` with the non-nil value `v` panics with "assignment to entry in nil map", and so
does `Delete(k)`. -/
theorem C15_counterexample :
    (some [0x76] : Option Bytes) ≠ none ∧
      ({ KVs := none } : UpdateBatch).Put [0x6b] (some [0x76])
        = (Result.panicked "assignment to entry in nil map", { KVs := none }) ∧
      ({ KVs := none } : UpdateBatch).Delete [0x6b]
        = (Result.panicked "assignment to entry in nil map", { KVs := none }) := by
  decide

/-- C15, amended: `UpdateBatch.Put` rejects nil values.  For every batch `b0` and key,
`Put(key, nil)` panics with "Nil value not allowed" and leaves the batch as it was.  For
every batch whose `KVs` map is allocated, as `NewUpdateBatch` makes it and `Put` and
`Delete` keep it: `Put(key, v)` with a non-nil `v`, the empty byte string included, returns
normally, and after it the batch reads `v` at `key` and is unchanged at every other key, so
a `Put` never records a deletion marker; `Delete(key)` returns normally, records the nil
marker at `key` and changes no other key. -/
theorem C15_put_rejects_nil (b0 batch : UpdateBatch) (key k v : Bytes)
    (halloc : batch.KVs ≠ none) :
    b0.Put key none = (Result.panicked "Nil value not allowed", b0) ∧
      (batch.Put key (some v)).1 = Result.ok () ∧
      (batch.Put key (some [])).1 = Result.ok () ∧
      (batch.Put key (some v)).2.entries.lookup k
        = (if k = key then some (some v) else batch.entries.lookup k) ∧
      (batch.Delete key).1 = Result.ok () ∧
      (batch.Delete key).2.entries.lookup k
        = (if k = key then some none else batch.entries.lookup k) ∧
      NewUpdateBatch.KVs ≠ none ∧
      (batch.Put key (some v)).2.KVs ≠ none ∧
      (batch.Delete key).2.KVs ≠ none := by
  cases hb : batch.KVs with
  | none => exact absurd hb halloc
  | some m =>
    refine ⟨by simp [UpdateBatch.Put], by simp [UpdateBatch.Put, hb],
      by simp [UpdateBatch.Put, hb], ?_, by simp [UpdateBatch.Delete, hb], ?_,
      by simp [NewUpdateBatch], by simp [UpdateBatch.Put, hb], by simp [UpdateBatch.Delete, hb]⟩
    · simpa [UpdateBatch.Put, hb, UpdateBatch.entries] using lookup_mapAssign m key k (some v)
    · simpa [UpdateBatch.Delete, hb, UpdateBatch.entries] using lookup_mapAssign m key k none

theorem C15_put_rejects_nil_witness :
    sampleBatch.KVs ≠ none ∧
      ({ KVs := none } : UpdateBatch).Put [0x62] none
        = (Result.panicked "Nil value not allowed", { KVs := none }) ∧
      (sampleBatch.Put [0x62] (some [0x07])).1 = Result.ok () ∧
      (sampleBatch.Put [0x62] (some [])).1 = Result.ok () ∧
      (sampleBatch.Put [0x62] (some [0x07])).2.entries.lookup [0x61]
        = (if ([0x61] : Bytes) = [0x62] then some (some [0x07])
            else sampleBatch.entries.lookup [0x61]) ∧
      (sampleBatch.Delete [0x62]).1 = Result.ok () ∧
      (sampleBatch.Delete [0x62]).2.entries.lookup [0x61]
        = (if ([0x61] : Bytes) = [0x62] then some none else sampleBatch.entries.lookup [0x61]) ∧
      NewUpdateBatch.KVs ≠ none ∧
      (sampleBatch.Put [0x62] (some [0x07])).2.KVs ≠ none ∧
      (sampleBatch.Delete [0x62]).2.KVs ≠ none :=
  ⟨by decide,
    C15_put_rejects_nil { KVs := none } sampleBatch [0x62] [0x61] [0x07] (by decide)⟩

/-- C16: `UpdateBatch` is last-write-wins with unique keys.  For every sequence of `Put`
and `Delete` calls made in order on the batch of `NewUpdateBatch`, all returning normally,
the batch holds each key once, holds a key exactly when some call acted on it, and reads
at a key `k` what the last call on `k` asked for: the value of the `Put`, or the nil
deletion marker of the `Delete`. -/
theorem C16_last_write_wins (calls : List BatchCall) (k : Bytes)
    (h : (runCalls calls NewUpdateBatch).1 = Result.ok ()) :
    (runCalls calls NewUpdateBatch).2.WF ∧
      (runCalls calls NewUpdateBatch).2.entries.lookup k = lastWrite calls k ∧
      (k ∈ (runCalls calls NewUpdateBatch).2.entries.map Prod.fst ↔ ∃ c ∈ calls, c.key = k) := by
  obtain ⟨h1, h2⟩ := runCalls_ok calls NewUpdateBatch h
  have hl : (runCalls calls NewUpdateBatch).2.entries.lookup k = lastWrite calls k := by
    rw [h2 k]
    cases lastWrite calls k <;> simp [NewUpdateBatch, UpdateBatch.entries]
  refine ⟨h1 (by simp [NewUpdateBatch, UpdateBatch.entries]), hl, ?_⟩
  constructor
  · intro hk
    by_contra hno
    have hnone : lastWrite calls k = none :=
      (lastWrite_eq_none_iff calls k).2 fun c hc e => hno ⟨c, hc, e⟩
    rw [← hl] at hnone
    exact not_key_of_lookup_none _ k hnone hk
  · rintro ⟨c, hc, hck⟩
    by_contra hk
    have hnone := lookup_none_of_not_key _ k hk
    rw [hl] at hnone
    exact (lastWrite_eq_none_iff calls k).1 hnone c hc hck

theorem C16_last_write_wins_witness :
    (runCalls [BatchCall.Put [0x61] (some [0x01]), BatchCall.Put [0x62] (some [0x02]),
        BatchCall.Delete [0x61], BatchCall.Put [0x62] (some [])] NewUpdateBatch).1
      = Result.ok () ∧
      (runCalls [BatchCall.Put [0x61] (some [0x01]), BatchCall.Put [0x62] (some [0x02]),
        BatchCall.Delete [0x61], BatchCall.Put [0x62] (some [])] NewUpdateBatch).2.WF ∧
      (runCalls [BatchCall.Put [0x61] (some [0x01]), BatchCall.Put [0x62] (some [0x02]),
        BatchCall.Delete [0x61], BatchCall.Put [0x62] (some [])] NewUpdateBatch).2.entries.lookup
          [0x61]
        = lastWrite [BatchCall.Put [0x61] (some [0x01]), BatchCall.Put [0x62] (some [0x02]),
            BatchCall.Delete [0x61], BatchCall.Put [0x62] (some [])] [0x61] ∧
      ([0x61] ∈ (runCalls [BatchCall.Put [0x61] (some [0x01]), BatchCall.Put [0x62] (some [0x02]),
          BatchCall.Delete [0x61], BatchCall.Put [0x62] (some [])] NewUpdateBatch).2.entries.map
            Prod.fst ↔
        ∃ c ∈ [BatchCall.Put [0x61] (some [0x01]), BatchCall.Put [0x62] (some [0x02]),
          BatchCall.Delete [0x61], BatchCall.Put [0x62] (some [])], c.key = [0x61]) :=
  ⟨by decide,
    C16_last_write_wins [BatchCall.Put [0x61] (some [0x01]), BatchCall.Put [0x62] (some [0x02]),
      BatchCall.Delete [0x61], BatchCall.Put [0x62] (some [])] [0x61] (by decide)⟩

/-- C17: namespace handle memoization.  In a provider state reached from `NewProvider` by
`GetDBHandle` calls (`Provider.WF`), `GetDBHandle(name)` returns a pointer to a handle
object whose `dbName` is `name` and whose `db` is the shared `DB` of the provider;
afterwards the cache maps `name` to that pointer and reads at every other name as before;
objects allocated earlier are untouched; a second `GetDBHandle(name)` returns the same
pointer and changes neither the cache nor the memory; the cache holds each name once and
the state is again well-formed.  The state `NewProvider` returns is well-formed, with an
empty cache and the `DB` it opened. -/
theorem C17_handle_memo {σ : Type} (E : KVEngine σ) (conf : Conf) (w0 : σ) (mem0 : Memory)
    (p : Provider) (mem : Memory) (name n : Bytes) (hwf : p.WF mem) :
    ∃ ptr p1 mem1,
      p.GetDBHandle name mem = (ptr, p1, mem1) ∧
      mem1.handles[ptr]? = some { dbName := name, db := p.db } ∧
      p1.db = p.db ∧
      p1.dbHandles.lookup n = (if n = name then some ptr else p.dbHandles.lookup n) ∧
      p1.GetDBHandle name mem1 = (ptr, p1, mem1) ∧
      (p1.dbHandles.map Prod.fst).Nodup ∧
      p1.WF mem1 ∧
      mem1.handles.take mem.handles.length = mem.handles ∧
      mem1.dbs = mem.dbs ∧
      (NewProvider E conf mem0 w0).1.WF (NewProvider E conf mem0 w0).2.1 ∧
      (NewProvider E conf mem0 w0).1.dbHandles = [] ∧
      (NewProvider E conf mem0 w0).2.1.dbs[(NewProvider E conf mem0 w0).1.db]?
        = some (DB.Open E (CreateDB conf) w0).1 := by
  have hnew : (NewProvider E conf mem0 w0).1.WF (NewProvider E conf mem0 w0).2.1 ∧
      (NewProvider E conf mem0 w0).1.dbHandles = [] ∧
      (NewProvider E conf mem0 w0).2.1.dbs[(NewProvider E conf mem0 w0).1.db]?
        = some (DB.Open E (CreateDB conf) w0).1 := by
    refine ⟨⟨by simp [NewProvider], by simp [NewProvider]⟩, rfl, ?_⟩
    simp [NewProvider]
  cases hl : p.dbHandles.lookup name with
  | some ptr =>
    have hget : p.GetDBHandle name mem = (ptr, p, mem) := by
      simp [Provider.GetDBHandle, hl]
    refine ⟨ptr, p, mem, hget, hwf.2 (name, ptr) (mem_of_lookup_some _ _ _ hl), rfl, ?_, hget,
      hwf.1, hwf, List.take_length _, rfl, hnew⟩
    by_cases hn : n = name
    · rw [if_pos hn, hn, hl]
    · rw [if_neg hn]
  | none =>
    have hget : p.GetDBHandle name mem =
        (mem.handles.length, { p with dbHandles := mapAssign p.dbHandles name mem.handles.length },
          { mem with handles := mem.handles ++ [{ dbName := name, db := p.db }] }) := by
      simp [Provider.GetDBHandle, hl]
    have hlook : (mapAssign p.dbHandles name mem.handles.length).lookup name
        = some mem.handles.length := by
      rw [lookup_mapAssign, if_pos rfl]
    refine ⟨_, _, _, hget, getElem?_alloc _ _, rfl, lookup_mapAssign _ _ _ _, ?_,
      nodup_mapAssign _ _ _ hwf.1, ⟨nodup_mapAssign _ _ _ hwf.1, ?_⟩, ?_, rfl, hnew⟩
    · simp [Provider.GetDBHandle, hlook]
    · intro e he
      simp only [mapAssign_new _ _ _ hl, List.mem_append, List.mem_singleton] at he
      rcases he with he | he
      · exact getElem?_append_of_some _ _ _ _ (hwf.2 e he)
      · rw [he]
        exact getElem?_alloc _ _
    · simp

theorem C17_handle_memo_witness :
    sampleProvider.1.WF sampleProvider.2 ∧
      ∃ ptr p1 mem1,
        sampleProvider.1.GetDBHandle [0x64, 0x32] sampleProvider.2 = (ptr, p1, mem1) ∧
        mem1.handles[ptr]? = some { dbName := [0x64, 0x32], db := sampleProvider.1.db } ∧
        p1.db = sampleProvider.1.db ∧
        p1.dbHandles.lookup [0x64, 0x31]
          = (if ([0x64, 0x31] : Bytes) = [0x64, 0x32] then some ptr
              else sampleProvider.1.dbHandles.lookup [0x64, 0x31]) ∧
        p1.GetDBHandle [0x64, 0x32] mem1 = (ptr, p1, mem1) ∧
        (p1.dbHandles.map Prod.fst).Nodup ∧
        p1.WF mem1 ∧
        mem1.handles.take sampleProvider.2.handles.length = sampleProvider.2.handles ∧
        mem1.dbs = sampleProvider.2.dbs ∧
        (NewProvider mapEngine Conf.mk ⟨[], []⟩ World.fresh).1.WF
          (NewProvider mapEngine Conf.mk ⟨[], []⟩ World.fresh).2.1 ∧
        (NewProvider mapEngine Conf.mk ⟨[], []⟩ World.fresh).1.dbHandles = [] ∧
        (NewProvider mapEngine Conf.mk ⟨[], []⟩ World.fresh).2.1.dbs[
            (NewProvider mapEngine Conf.mk ⟨[], []⟩ World.fresh).1.db]?
          = some (DB.Open mapEngine (CreateDB Conf.mk) World.fresh).1 :=
  ⟨by decide,
    C17_handle_memo mapEngine Conf.mk World.fresh ⟨[], []⟩ sampleProvider.1 sampleProvider.2
      [0x64, 0x32] [0x64, 0x31] (by decide)⟩

/-- C18: `retrieveAppKey` is defined exactly on byte strings that hold the separator: for
every byte string `p` it returns the bytes of `p` after the first 0x00 if `p` holds 0x00,
and fails with the index-out-of-range panic otherwise. -/
theorem C18_retrieveAppKey_defined (p : Bytes) :
    retrieveAppKey p = (if (0 : Byte) ∈ p then some (p.drop (p.indexOf 0 + 1)) else none) ∧
      ((retrieveAppKey p).isSome = true ↔ (0 : Byte) ∈ p) := by
  by_cases h : (0 : Byte) ∈ p
  · obtain ⟨a, b, hab, ha⟩ := exists_first_sep p h
    have hr : retrieveAppKey p = some b := by
      have := retrieveAppKey_levelKey a b ha
      simpa [constructLevelKey, dbNameKeySep, hab] using this
    have hd : p.drop (p.indexOf 0 + 1) = b := by
      rw [hab, indexOf_first_sep a b ha]
      simp [List.drop_append]
    simp [h, hr, hd]
  · simp [h, retrieveAppKey_none p h]

/-- C19: for every namespace name `n` without the byte 0x00 and every raw key `k`, the empty
key and keys that hold 0x00 bytes included, `retrieveAppKey (constructLevelKey n k)`
returns `k`. -/
theorem C19_roundtrip_any_key (n k : Bytes) (hn : (0 : Byte) ∉ n) :
    retrieveAppKey (constructLevelKey n k) = some k :=
  retrieveAppKey_levelKey n k hn

theorem C19_roundtrip_any_key_witness :
    (0 : Byte) ∉ ([0x64, 0x62] : Bytes) ∧
      retrieveAppKey (constructLevelKey [0x64, 0x62] [0x00, 0x6b, 0x00, 0x00]) =
        some [0x00, 0x6b, 0x00, 0x00] ∧
      retrieveAppKey (constructLevelKey [0x64, 0x62] []) = some [] :=
  ⟨by decide, C19_roundtrip_any_key [0x64, 0x62] [0x00, 0x6b, 0x00, 0x00] (by decide),
    C19_roundtrip_any_key [0x64, 0x62] [] (by decide)⟩

/-- C20: the key encoding keeps the order within a namespace: for every namespace name `n`
and raw keys `k1`, `k2`, `k1 < k2` in byte-wise lexicographic order exactly when
`constructLevelKey n k1 < constructLevelKey n k2`, both in the order `bytesLt` and in the
lexicographic order `List.Lex` of byte lists, which agree. -/
theorem C20_order_preserved (n k1 k2 : Bytes) :
    (bytesLt k1 k2 = true ↔ bytesLt (constructLevelKey n k1) (constructLevelKey n k2) = true) ∧
      (bytesLt k1 k2 = true ↔ List.Lex (· < ·) k1 k2) ∧
      (List.Lex (· < ·) k1 k2 ↔
        List.Lex (· < ·) (constructLevelKey n k1) (constructLevelKey n k2)) := by
  have h : bytesLt (constructLevelKey n k1) (constructLevelKey n k2) = bytesLt k1 k2 := by
    simp only [constructLevelKey, bytesLt_append_left]
  refine ⟨by rw [h], bytesLt_iff_lex k1 k2, ?_⟩
  rw [← bytesLt_iff_lex, ← bytesLt_iff_lex, h]

/-- C21: the guarded handle of the common package refines the unguarded one of the core
package on Opened handles.  For every engine, every handle state reachable by `CreateDB`,
`Open` and `Close` in which `dbState` is opened, and every argument, `Get`, `Put`,
`Delete`, `GetIterator` and `WriteBatch` of the guarded `DB` return the same result and
leave the same engine state, hence make the same engine calls, as those of the unguarded
`DB` on the same fields; so the two can differ only on a handle that is closed or was
never opened.  `CreateDB`, `Open` and `Close` of the two versions agree on every state. -/
theorem C21_guarded_refines_core {σ : Type} (E : KVEngine σ) (dbInst d0 : DB) (conf : Conf)
    (key value : Bytes) (startKey endKey : Option Bytes) (batch : Ustorehelper.WriteBatch)
    (w : σ) (hreach : DB.Reachable E dbInst) (hop : dbInst.dbState = dbState.opened) :
    DB.Get E dbInst key w = Core.DB.Get E dbInst.toCore key w ∧
      DB.Put E dbInst key value w = Core.DB.Put E dbInst.toCore key value w ∧
      DB.Delete E dbInst key w = Core.DB.Delete E dbInst.toCore key w ∧
      DB.GetIterator E dbInst startKey endKey w
        = Core.DB.GetIterator E dbInst.toCore startKey endKey w ∧
      DB.WriteBatch E dbInst batch w = Core.DB.WriteBatch E dbInst.toCore batch w ∧
      (CreateDB conf).toCore = Core.CreateDB conf ∧
      ((DB.Open E d0 w).1.toCore, (DB.Open E d0 w).2) = Core.DB.Open E d0.toCore w ∧
      ((DB.Close E d0 w).1.toCore, (DB.Close E d0 w).2) = Core.DB.Close E d0.toCore w := by
  have hinit := DB.init_of_reachable_opened E dbInst hreach hop
  refine ⟨?_, ?_, ?_, ?_, ?_, rfl, ?_, ?_⟩
  · cases hdb : dbInst.db <;> simp [DB.Get, Core.DB.Get, DB.toCore, hop, hinit, hdb]
  · cases hdb : dbInst.db <;> simp [DB.Put, Core.DB.Put, DB.toCore, hop, hinit, hdb]
  · cases hdb : dbInst.db <;> simp [DB.Delete, Core.DB.Delete, DB.toCore, hop, hinit, hdb]
  · cases hdb : dbInst.db <;>
      simp [DB.GetIterator, Core.DB.GetIterator, DB.toCore, hop, hdb]
  · cases hdb : dbInst.db <;> simp [DB.WriteBatch, Core.DB.WriteBatch, DB.toCore, hop, hdb]
  · cases hd : d0.dbState <;> simp [DB.Open, Core.DB.Open, DB.toCore, hd]
  · cases hd : d0.dbState <;> simp [DB.Close, Core.DB.Close, DB.toCore, hd]

theorem C21_guarded_refines_core_witness :
    DB.Reachable mapEngine sampleDB ∧ sampleDB.dbState = dbState.opened ∧
      DB.Get mapEngine sampleDB [0x64, 0x31, 0x00, 0x61] sampleWorld
        = Core.DB.Get mapEngine sampleDB.toCore [0x64, 0x31, 0x00, 0x61] sampleWorld ∧
      DB.Put mapEngine sampleDB [0x64, 0x31, 0x00, 0x61] [0x07] sampleWorld
        = Core.DB.Put mapEngine sampleDB.toCore [0x64, 0x31, 0x00, 0x61] [0x07] sampleWorld ∧
      DB.Delete mapEngine sampleDB [0x64, 0x31, 0x00, 0x61] sampleWorld
        = Core.DB.Delete mapEngine sampleDB.toCore [0x64, 0x31, 0x00, 0x61] sampleWorld ∧
      DB.GetIterator mapEngine sampleDB (some [0x64, 0x31, 0x00]) none sampleWorld
        = Core.DB.GetIterator mapEngine sampleDB.toCore (some [0x64, 0x31, 0x00]) none
            sampleWorld ∧
      DB.WriteBatch mapEngine sampleDB [BatchOp.Delete [0x64, 0x31, 0x00, 0x61]] sampleWorld
        = Core.DB.WriteBatch mapEngine sampleDB.toCore [BatchOp.Delete [0x64, 0x31, 0x00, 0x61]]
            sampleWorld ∧
      (CreateDB Conf.mk).toCore = Core.CreateDB Conf.mk ∧
      ((DB.Open mapEngine sampleClosedDB sampleWorld).1.toCore,
          (DB.Open mapEngine sampleClosedDB sampleWorld).2)
        = Core.DB.Open mapEngine sampleClosedDB.toCore sampleWorld ∧
      ((DB.Close mapEngine sampleClosedDB sampleWorld).1.toCore,
          (DB.Close mapEngine sampleClosedDB sampleWorld).2)
        = Core.DB.Close mapEngine sampleClosedDB.toCore sampleWorld :=
  ⟨DB.Reachable.ofOpen (CreateDB Conf.mk) World.fresh (DB.Reachable.ofCreateDB Conf.mk), rfl,
    C21_guarded_refines_core mapEngine sampleDB sampleClosedDB Conf.mk
      [0x64, 0x31, 0x00, 0x61] [0x07] (some [0x64, 0x31, 0x00]) none
      [BatchOp.Delete [0x64, 0x31, 0x00, 0x61]] sampleWorld
      (DB.Reachable.ofOpen (CreateDB Conf.mk) World.fresh (DB.Reachable.ofCreateDB Conf.mk))
      rfl⟩

/-! ## The test scenarios, evaluated -/

/-- The scan of `TestIterator` in small: over the sample store, namespace `d1` from key `b`
with no end key yields the keys `b` and `c` with their values, and nothing of `d2`. -/
theorem scan_sample :
    (match DBHandle.GetIterator mapEngine ⟨[0x64, 0x31], 0⟩ sampleDB (some [0x62]) none
        sampleWorld with
      | Result.ok (itr, _) => scanAll 5 itr
      | Result.panicked _ => none)
      = some [([0x62], [0x02]), ([0x63], [0x03])] := by
  decide

/-- The sample batch on the sample store: `b` is overwritten, `a` is gone, `c` and the other
namespace are untouched. -/
theorem writeBatch_sample :
    (match DBHandle.WriteBatch mapEngine ⟨[0x64, 0x31], 0⟩ sampleDB sampleBatch sampleWorld with
      | Result.ok (err, w1) => some (err, w1.store)
      | Result.panicked _ => none)
      = some (none, [([0x64, 0x31, 0x00, 0x62], [0x09]), ([0x64, 0x31, 0x00, 0x63], [0x03]),
          ([0x64, 0x32, 0x00, 0x61], [0x04])]) := by
  decide

/-- The end-to-end scenario of `TestUStoreHelper`, through the namespace `d1` on a fresh
opened engine: put `a`, `b`, `c`, delete `a` and `b`; then `a` and `b` read absent with no
error and `c` reads its value. -/
theorem endToEnd_sample :
    (match DBHandle.Put mapEngine ⟨[0x64, 0x31], 0⟩ sampleDB [0x61] [0x01]
        (DB.Open mapEngine (CreateDB Conf.mk) World.fresh).2 with
      | Result.ok (_, w1) =>
        match DBHandle.Put mapEngine ⟨[0x64, 0x31], 0⟩ sampleDB [0x62] [0x02] w1 with
        | Result.ok (_, w2) =>
          match DBHandle.Put mapEngine ⟨[0x64, 0x31], 0⟩ sampleDB [0x63] [0x03] w2 with
          | Result.ok (_, w3) =>
            match DBHandle.Delete mapEngine ⟨[0x64, 0x31], 0⟩ sampleDB [0x61] w3 with
            | Result.ok (_, w4) =>
              match DBHandle.Delete mapEngine ⟨[0x64, 0x31], 0⟩ sampleDB [0x62] w4 with
              | Result.ok (_, w5) =>
                match DBHandle.Get mapEngine ⟨[0x64, 0x31], 0⟩ sampleDB [0x61] w5,
                  DBHandle.Get mapEngine ⟨[0x64, 0x31], 0⟩ sampleDB [0x62] w5,
                  DBHandle.Get mapEngine ⟨[0x64, 0x31], 0⟩ sampleDB [0x63] w5 with
                | Result.ok (r1, _), Result.ok (r2, _), Result.ok (r3, _) => some (r1, r2, r3)
                | _, _, _ => none
              | Result.panicked _ => none
            | Result.panicked _ => none
          | Result.panicked _ => none
        | Result.panicked _ => none
      | Result.panicked _ => none)
      = some ((none, none), (none, none), (some [0x03], none)) := by
  rfl

/-- An engine failure on `Get` comes back as a nil value with the engine text as error, on
`Put` as that error. -/
theorem engineError_sample :
    DB.Get failingEngine sampleDB [0x6b] () = Result.ok ((none, some "IO error"), ()) ∧
      DB.Put failingEngine sampleDB [0x6b] [0x76] () = Result.ok (some "IO error", ()) := by
  decide

/-- The call sequence put `a`, put `b`, delete `a`, put `b` with the empty value leaves the
nil marker at `a` and the empty value at `b`. -/
theorem runCalls_sample :
    runCalls [BatchCall.Put [0x61] (some [0x01]), BatchCall.Put [0x62] (some [0x02]),
        BatchCall.Delete [0x61], BatchCall.Put [0x62] (some [])] NewUpdateBatch
      = (Result.ok (), { KVs := some [([0x61], none), ([0x62], some [])] }) := by
  decide

/-- Where the two versions part: on the handle left by `CreateDB`, `Open`, `Close` the
guarded `Get` returns an error and makes no engine call while the unguarded `Get` calls the
engine on the destroyed connection; on the handle of `CreateDB` the guarded `Get` panics
with its own message and the guarded `WriteBatch` returns nil, while the unguarded ones
panic on the nil connection. -/
theorem guarded_differs_sample :
    DB.Get mapEngine sampleClosedDB [0x64, 0x31, 0x00, 0x61] sampleWorld
        = Result.ok ((none, some ""), sampleWorld) ∧
      Core.DB.Get mapEngine sampleClosedDB.toCore [0x64, 0x31, 0x00, 0x61] sampleWorld
        = Result.ok ((some [0x01], none),
            { sampleWorld with
              calls := sampleWorld.calls ++ [EngineCall.Get 0 [0x64, 0x31, 0x00, 0x61]] }) ∧
      DB.Get mapEngine (CreateDB Conf.mk) [0x61] sampleWorld
        = Result.panicked "DB is not opened yet" ∧
      Core.DB.Get mapEngine (CreateDB Conf.mk).toCore [0x61] sampleWorld
        = Result.panicked nilDeref ∧
      DB.WriteBatch mapEngine (CreateDB Conf.mk) [] sampleWorld = Result.ok (none, sampleWorld) ∧
      Core.DB.WriteBatch mapEngine (CreateDB Conf.mk).toCore [] sampleWorld
        = Result.panicked nilDeref :=
  ⟨rfl, rfl, rfl, rfl, rfl, rfl⟩

/-- The zero-value batch `UpdateBatch{}`: `WriteBatch` ranges over its nil map and submits
one empty engine write, leaving the store as it was. -/
theorem nilBatch_sample :
    DBHandle.WriteBatch mapEngine ⟨[0x64, 0x31], 0⟩ sampleDB { KVs := none } sampleWorld
      = Result.ok (none,
          { sampleWorld with calls := sampleWorld.calls ++ [EngineCall.Write 0 []] }) :=
  rfl

end Ustorehelper
